import Mathlib

/-!
Shallow embedding of the sales-reconciliation pipeline of the
`lg-logistica-backend` repository, together with proofs settling the frozen
claims about it.

Conventions of the embedding:
* A Python `dict` row (string keys to string values) is an association list
  `Row` with first-match lookup; `dict` keys are unique, so theorems that
  need it carry a `(chaves r).Nodup` hypothesis.
* `str.strip()` is `trim_txt` (whitespace trimming over the character list),
  `str.upper()` is `maiuscula`, Python's `in` on strings is `contem_txt`.
* Monetary `Decimal` values quantized to two places are integers in cents.
* In-place mutation (`_ensure_dedup_id_inplace`, merge-by-`update`) is
  explicit state passing: `append_coleta` returns the new store, the
  caller-visible (mutated) input rows, and both counters.
-/

namespace LgLogistica

/-- Characters stripped by Python's `str.strip()`. -/
def eh_espaco (c : Char) : Bool :=
  c = ' ' || c = '\t' || c = '\n' || c = '\r' || c = '\x0b' || c = '\x0c'

/-- Whitespace trimming over the underlying character list (Python `strip`). -/
def apara_lista (l : List Char) : List Char :=
  ((l.dropWhile eh_espaco).reverse.dropWhile eh_espaco).reverse

/-- Python `str.strip()`. -/
def trim_txt (s : String) : String := String.mk (apara_lista s.data)

/-- Python `str.upper()` (ASCII-adequate). -/
def maiuscula (s : String) : String := String.mk (s.data.map Char.toUpper)

/-- Python `str.lower()` (ASCII-adequate). -/
def minuscula (s : String) : String := String.mk (s.data.map Char.toLower)

/-- `needle` is a prefix of `hay` (on character lists). -/
def prefixo_lista : List Char → List Char → Bool
  | [], _ => true
  | _ :: _, [] => false
  | a :: as_, b :: bs => a = b && prefixo_lista as_ bs

/-- Python's substring test `needle in hay` (on character lists). -/
def contem_lista (ag : List Char) : List Char → Bool
  | [] => ag.isEmpty
  | c :: resto => prefixo_lista ag (c :: resto) || contem_lista ag resto

/-- Python's substring test `needle in hay` for strings. -/
def contem_txt (ag s : String) : Bool := contem_lista ag.data s.data

/-! ### Association lists: the model of Python dicts -/

/-- A Python dict with string keys: an association list, first match wins. -/
abbrev AList (β : Type) : Type := List (String × β)

/-- The keys of a dict, in insertion order. -/
def chaves {β : Type} : AList β → List String
  | [] => []
  | p :: resto => p.1 :: chaves resto

/-- `d.get(k)`: first-match lookup. -/
def aget {β : Type} : AList β → String → Option β
  | [], _ => none
  | p :: resto, k => if p.1 = k then some p.2 else aget resto k

/-- `d[k] = v`: replace the binding in place if the key exists, else append
(insertion-order semantics of Python dicts). -/
def aset {β : Type} : AList β → String → β → AList β
  | [], k, v => [(k, v)]
  | p :: resto, k, v => if p.1 = k then (k, v) :: resto else p :: aset resto k v

/-- A row of a planilha: one Python dict of string fields. -/
abbrev Row : Type := AList String

/-- `base.update(inc)`: every binding of `inc` overwrites/extends `base`. -/
def rowUpdate (base inc : Row) : Row := inc.foldl (fun b p => aset b p.1 p.2) base

/-- The trimmed `dedup_id` field of a row (`str(row.get("dedup_id") or "").strip()`). -/
def rowKey (r : Row) : String := trim_txt ((aget r "dedup_id").getD "")

/-! ### AList lemmas -/

theorem aget_aset_self {β : Type} (l : AList β) (k : String) (v : β) :
    aget (aset l k v) k = some v := by
  induction l with
  | nil => simp [aset, aget]
  | cons p resto ih =>
    by_cases h : p.1 = k
    · simp [aset, h, aget]
    · simp [aset, h, aget, ih]

theorem aget_aset_ne {β : Type} (l : AList β) {k k' : String} (v : β) (h : k ≠ k') :
    aget (aset l k v) k' = aget l k' := by
  induction l with
  | nil => simp [aset, aget, h]
  | cons p resto ih =>
    by_cases hp : p.1 = k
    · simp only [aset, hp, if_pos rfl, aget]
      rw [if_neg h, if_neg h]
    · simp only [aset, if_neg hp, aget]
      by_cases hp' : p.1 = k'
      · rw [if_pos hp', if_pos hp']
      · rw [if_neg hp', if_neg hp', ih]

theorem mem_chaves_aset {β : Type} (l : AList β) (k k' : String) (v : β)
    (h : k' ∈ chaves l) : k' ∈ chaves (aset l k v) := by
  induction l with
  | nil => simp [chaves] at h
  | cons p resto ih =>
    by_cases hp : p.1 = k
    · simp only [aset, if_pos hp, chaves, List.mem_cons] at h ⊢
      rcases h with h | h
      · left; rw [h, hp]
      · right; exact h
    · simp only [aset, if_neg hp, chaves, List.mem_cons] at h ⊢
      rcases h with h | h
      · left; exact h
      · right; exact ih h

theorem self_mem_chaves_aset {β : Type} (l : AList β) (k : String) (v : β) :
    k ∈ chaves (aset l k v) := by
  induction l with
  | nil => simp [aset, chaves]
  | cons p resto ih =>
    by_cases hp : p.1 = k
    · simp [aset, hp, chaves]
    · simp only [aset, if_neg hp, chaves, List.mem_cons]
      right; exact ih

theorem aget_eq_none_of_not_mem_chaves {β : Type} (l : AList β) (k : String)
    (h : k ∉ chaves l) : aget l k = none := by
  induction l with
  | nil => rfl
  | cons p resto ih =>
    simp only [chaves, List.mem_cons, not_or] at h
    have hp : ¬p.1 = k := fun hh => h.1 hh.symm
    simp only [aget, if_neg hp]
    exact ih h.2

theorem mem_of_aget_eq_some {β : Type} (l : AList β) (k : String) (v : β)
    (h : aget l k = some v) : (k, v) ∈ l := by
  induction l with
  | nil => simp [aget] at h
  | cons p resto ih =>
    by_cases hp : p.1 = k
    · simp only [aget, if_pos hp] at h
      rcases p with ⟨p1, p2⟩
      simp only at hp h
      rw [List.mem_cons]
      left
      rw [Prod.mk.injEq]
      exact ⟨hp.symm, (Option.some.inj h).symm⟩
    · simp only [aget, if_neg hp] at h
      exact List.mem_cons_of_mem _ (ih h)

theorem mem_chaves_of_aget_eq_some {β : Type} (l : AList β) (k : String) (v : β)
    (h : aget l k = some v) : k ∈ chaves l := by
  induction l with
  | nil => simp [aget] at h
  | cons p resto ih =>
    by_cases hp : p.1 = k
    · simp [chaves, hp.symm]
    · simp only [aget, if_neg hp] at h
      simp only [chaves, List.mem_cons]
      right; exact ih h

theorem aget_isSome_of_mem_chaves {β : Type} (l : AList β) (k : String)
    (h : k ∈ chaves l) : (aget l k).isSome := by
  induction l with
  | nil => simp [chaves] at h
  | cons p resto ih =>
    by_cases hp : p.1 = k
    · simp [aget, hp]
    · simp only [chaves, List.mem_cons] at h
      rcases h with h | h
      · exact absurd h.symm hp
      · simp only [aget, if_neg hp]
        exact ih h

theorem mem_chaves_aset_cases {β : Type} (l : AList β) (k k' : String) (v : β)
    (h : k' ∈ chaves (aset l k v)) : k' = k ∨ k' ∈ chaves l := by
  induction l with
  | nil =>
    simp only [aset, chaves, List.mem_cons, List.not_mem_nil, or_false] at h
    exact Or.inl h
  | cons p resto ih =>
    by_cases hp : p.1 = k
    · simp only [aset, if_pos hp, chaves, List.mem_cons] at h
      rcases h with h | h
      · exact Or.inl h
      · exact Or.inr (List.mem_cons_of_mem _ h)
    · simp only [aset, if_neg hp, chaves, List.mem_cons] at h
      rcases h with h | h
      · exact Or.inr (by simp [chaves, List.mem_cons, h])
      · rcases ih h with h' | h'
        · exact Or.inl h'
        · exact Or.inr (List.mem_cons_of_mem _ h')

theorem chaves_nodup_aset {β : Type} (l : AList β) (k : String) (v : β)
    (h : (chaves l).Nodup) : (chaves (aset l k v)).Nodup := by
  induction l with
  | nil => simp [aset, chaves]
  | cons p resto ih =>
    simp only [chaves, List.nodup_cons] at h
    by_cases hp : p.1 = k
    · simp only [aset, if_pos hp, chaves, List.nodup_cons]
      exact ⟨by rw [← hp]; exact h.1, h.2⟩
    · simp only [aset, if_neg hp, chaves, List.nodup_cons]
      constructor
      · intro hmem
        rcases mem_chaves_aset_cases resto k p.1 v hmem with hc | hc
        · exact hp hc
        · exact h.1 hc
      · exact ih h.2

/-! ### Trimming lemmas -/

theorem dropWhile_dropWhile_self (p : Char → Bool) (l : List Char) :
    (l.dropWhile p).dropWhile p = l.dropWhile p := by
  induction l with
  | nil => rfl
  | cons c t ih =>
    by_cases h : p c
    · simp only [List.dropWhile_cons, h, if_pos rfl]
      exact ih
    · simp [List.dropWhile_cons, h]

theorem dropWhile_eq_self_of_head (p : Char → Bool) (l : List Char)
    (h : ∀ c t, l = c :: t → p c = false) : l.dropWhile p = l := by
  cases l with
  | nil => rfl
  | cons c t => simp [List.dropWhile_cons, h c t rfl]

theorem head_dropWhile_false (p : Char → Bool) (l : List Char) :
    ∀ c t, l.dropWhile p = c :: t → p c = false := by
  induction l with
  | nil => intro c t h; simp [List.dropWhile] at h
  | cons a resto ih =>
    intro c t h
    by_cases ha : p a
    · rw [List.dropWhile_cons, if_pos ha] at h
      exact ih c t h
    · rw [List.dropWhile_cons, if_neg ha] at h
      rw [← (List.cons.inj h).1]
      exact Bool.of_not_eq_true ha

theorem apara_lista_idem (l : List Char) : apara_lista (apara_lista l) = apara_lista l := by
  unfold apara_lista
  set A := l.dropWhile eh_espaco with hA
  set B := (A.reverse.dropWhile eh_espaco).reverse with hB
  have hBpre : B <+: A := by
    have hsuf : A.reverse.dropWhile eh_espaco <:+ A.reverse := List.dropWhile_suffix _
    have hrp := (@List.reverse_prefix _ (A.reverse.dropWhile eh_espaco) A.reverse).mpr hsuf
    rw [List.reverse_reverse] at hrp
    exact hrp
  have hdropB : B.dropWhile eh_espaco = B := by
    apply dropWhile_eq_self_of_head
    intro c t hct
    rcases hBpre with ⟨rest, hrest⟩
    have hAct : A = c :: (t ++ rest) := by rw [← hrest, hct]; simp
    exact head_dropWhile_false eh_espaco l c (t ++ rest) (by rw [← hA]; exact hAct)
  rw [hdropB, hB]
  rw [List.reverse_reverse, dropWhile_dropWhile_self]

theorem trim_txt_idem (s : String) : trim_txt (trim_txt s) = trim_txt s := by
  unfold trim_txt
  rw [apara_lista_idem]

/-! ### `app/storage/planilhas.py` — the dedup merge store -/

/-- Insert a string into a `≤`-sorted list (used to model Python `sorted`). -/
def insere_ordenado (x : String) : List String → List String
  | [] => [x]
  | y :: ys => if x ≤ y then x :: y :: ys else y :: insere_ordenado x ys

/-- Python `sorted` on a list of strings (insertion sort). -/
def ordena_txt : List String → List String
  | [] => []
  | x :: xs => insere_ordenado x (ordena_txt xs)

/-- `_infer_dedup_id`, inner loop: first key whose value is present and
trims to a non-empty string. -/
def infer_dedup_go (row : Row) : List String → String
  | [] => ""
  | k :: ks =>
    match aget row k with
    | none => infer_dedup_go row ks
    | some v => if trim_txt v ≠ "" then trim_txt v else infer_dedup_go row ks

/-- `_infer_dedup_id(row)`: canonical per-row id, preferring `dedup_id`,
then `id_line_item` / `line_item_id`, then `transaction_id`. -/
def infer_dedup_id (row : Row) : String :=
  infer_dedup_go row ["dedup_id", "id_line_item", "line_item_id", "transaction_id"]

/-- `_ensure_dedup_id_inplace(row)`: returns the id and the (possibly
mutated) row, writing `dedup_id` into the row when it was missing/blank and
an id could be inferred. -/
def ensure_dedup_id (row : Row) : String × Row :=
  let did := trim_txt ((aget row "dedup_id").getD "")
  if did ≠ "" then (did, row)
  else
    let did2 := infer_dedup_id row
    if did2 ≠ "" then (did2, aset row "dedup_id" did2) else (did2, row)

/-- The persisted planilha JSON document (the fields the pipeline reads). -/
structure Planilha where
  lines : List Row := []
  row_count : Nat := 0
  dedup_ids : List String := []

/-- `create_planilha`: an empty document (`lines: []`, `index.dedup_ids: []`). -/
def create_planilha : Planilha := {}

/-- First phase of `append_coleta`: walk the stored lines, ensuring each one
has a `dedup_id` (in place) and building the in-memory index
`dedup_id -> position of the row`. -/
def indexa_linhas_go : List Row → List Row → AList Nat → List Row × AList Nat
  | [], acc, idx => (acc, idx)
  | row :: resto, acc, idx =>
    let par := ensure_dedup_id row
    let idx' := if par.1 ≠ "" then aset idx par.1 acc.length else idx
    indexa_linhas_go resto (acc ++ [par.2]) idx'

/-- State threaded through the merge loop of `append_coleta`. -/
structure MergeSt where
  lines : List Row
  idx : AList Nat
  adicionados : Nat
  atualizados : Nat
  novas : List Row

/-- One iteration of the merge loop of `append_coleta` over an incoming row. -/
def merge_linha (st : MergeSt) (row : Row) : MergeSt :=
  let par := ensure_dedup_id row
  if par.1 = "" then
    { st with lines := st.lines ++ [par.2], adicionados := st.adicionados + 1,
              novas := st.novas ++ [par.2] }
  else
    match aget st.idx par.1 with
    | some i =>
      { st with lines := st.lines.set i (rowUpdate (st.lines.getD i []) par.2),
                atualizados := st.atualizados + 1, novas := st.novas ++ [par.2] }
    | none =>
      { st with lines := st.lines ++ [par.2], idx := aset st.idx par.1 st.lines.length,
                adicionados := st.adicionados + 1, novas := st.novas ++ [par.2] }

/-- The merge loop of `append_coleta` over all incoming rows. -/
def merge_linhas (st : MergeSt) : List Row → MergeSt
  | [] => st
  | row :: resto => merge_linhas (merge_linha st row) resto

/-- Result of `append_coleta`: the saved document, the caller-visible
(mutated in place) incoming rows, and the `(adicionados, atualizados)`
counters it returns. -/
structure AppendResult where
  planilha : Planilha
  novas_linhas : List Row
  adicionados : Nat
  atualizados : Nat

/-- `append_coleta(planilha_id, novas_linhas)`: merge incoming rows into the
stored document by `dedup_id`, appending unknown keys and
`dict.update`-merging known ones, then persist with
`row_count = len(lines)` and the sorted key index. -/
def append_coleta (p : Planilha) (novas_linhas : List Row) : AppendResult :=
  let fase1 := indexa_linhas_go p.lines [] []
  let st := merge_linhas ⟨fase1.1, fase1.2, 0, 0, []⟩ novas_linhas
  { planilha := { lines := st.lines, row_count := st.lines.length,
                  dedup_ids := ordena_txt (chaves st.idx) },
    novas_linhas := st.novas,
    adicionados := st.adicionados,
    atualizados := st.atualizados }

/-! ### Lemmas about `ensure_dedup_id` and row merging -/

theorem fst_mem_chaves {β : Type} (l : AList β) (p : String × β) :
    p ∈ l → p.1 ∈ chaves l := by
  induction l with
  | nil => intro h; simp at h
  | cons q resto ih =>
    intro h
    rw [List.mem_cons] at h
    rcases h with h | h
    · rw [h]; simp [chaves]
    · simp only [chaves, List.mem_cons]
      right; exact ih h

theorem mem_aset_of_nodup {β : Type} (l : AList β) (p : String × β) (k : String) (v : β) :
    (chaves l).Nodup → p ∈ aset l k v → p = (k, v) ∨ (p ∈ l ∧ p.1 ≠ k) := by
  induction l with
  | nil =>
    intro _ h
    simp only [aset, List.mem_cons, List.not_mem_nil, or_false] at h
    exact Or.inl h
  | cons q resto ih =>
    intro hn h
    simp only [chaves, List.nodup_cons] at hn
    by_cases hq : q.1 = k
    · rw [aset, if_pos hq] at h
      rw [List.mem_cons] at h
      rcases h with h | h
      · exact Or.inl h
      · refine Or.inr ⟨List.mem_cons_of_mem _ h, ?_⟩
        intro hk
        apply hn.1
        rw [hq, ← hk]
        exact fst_mem_chaves resto p h
    · rw [aset, if_neg hq] at h
      rw [List.mem_cons] at h
      rcases h with h | h
      · exact Or.inr ⟨by rw [h]; exact List.mem_cons_self _ _, by rw [h]; exact hq⟩
      · rcases ih hn.2 h with h' | h'
        · exact Or.inl h'
        · exact Or.inr ⟨List.mem_cons_of_mem _ h'.1, h'.2⟩

theorem trim_txt_vazio : trim_txt "" = "" := rfl

theorem infer_dedup_go_trim (row : Row) (ks : List String) :
    trim_txt (infer_dedup_go row ks) = infer_dedup_go row ks := by
  induction ks with
  | nil => rfl
  | cons k resto ih =>
    rw [infer_dedup_go]
    cases h : aget row k with
    | none => exact ih
    | some v =>
      by_cases hv : trim_txt v ≠ ""
      · simp only [if_pos hv]
        exact trim_txt_idem v
      · simp only [if_neg hv]
        exact ih

theorem infer_dedup_id_trim (row : Row) :
    trim_txt (infer_dedup_id row) = infer_dedup_id row :=
  infer_dedup_go_trim row _

theorem ensure_dedup_id_of_rowKey (row : Row) (h : rowKey row ≠ "") :
    ensure_dedup_id row = (rowKey row, row) := by
  rw [rowKey] at h
  rw [ensure_dedup_id]
  simp only [ne_eq, h, not_false_eq_true, if_true, rowKey]

theorem ensure_dedup_id_of_key_vazia (row : Row)
    (h : trim_txt ((aget row "dedup_id").getD "") = "") :
    ensure_dedup_id row =
      (if infer_dedup_id row ≠ "" then
        (infer_dedup_id row, aset row "dedup_id" (infer_dedup_id row))
      else (infer_dedup_id row, row)) := by
  rw [ensure_dedup_id]
  simp only [h, ne_eq, not_true_eq_false, if_false]

theorem infer_of_rowKey (row : Row) (h : rowKey row ≠ "") :
    infer_dedup_id row = rowKey row := by
  rw [rowKey] at h ⊢
  cases hg : aget row "dedup_id" with
  | none => rw [hg] at h; exact absurd trim_txt_vazio h
  | some v =>
    rw [hg] at h
    simp only [Option.getD_some] at h ⊢
    rw [infer_dedup_id, infer_dedup_go, hg]
    simp only [ne_eq, h, not_false_eq_true, if_true]

theorem ensure_dedup_id_fst (row : Row) :
    (ensure_dedup_id row).1 = infer_dedup_id row := by
  by_cases h : rowKey row ≠ ""
  · rw [ensure_dedup_id_of_rowKey row h, infer_of_rowKey row h]
  · rw [not_not] at h
    rw [rowKey] at h
    rw [ensure_dedup_id_of_key_vazia row h]
    by_cases h2 : infer_dedup_id row ≠ ""
    · rw [if_pos h2]
    · rw [if_neg h2]

theorem ensure_dedup_id_rowKey (row : Row) (h : (ensure_dedup_id row).1 ≠ "") :
    rowKey (ensure_dedup_id row).2 = (ensure_dedup_id row).1 := by
  by_cases h1 : rowKey row ≠ ""
  · rw [ensure_dedup_id_of_rowKey row h1]
  · rw [not_not] at h1
    rw [rowKey] at h1
    rw [ensure_dedup_id_of_key_vazia row h1] at h ⊢
    by_cases h2 : infer_dedup_id row ≠ ""
    · simp only [if_pos h2, rowKey, aget_aset_self, Option.getD_some]
      exact infer_dedup_id_trim row
    · rw [if_neg h2] at h
      rw [not_not] at h2
      exact absurd h2 h

theorem ensure_dedup_id_snd_of_vazio (row : Row) (h : infer_dedup_id row = "") :
    (ensure_dedup_id row).2 = row := by
  have h1 : trim_txt ((aget row "dedup_id").getD "") = "" := by
    by_contra hne
    have hinf := infer_of_rowKey row (by rw [rowKey]; exact hne)
    rw [rowKey] at hinf
    exact hne (hinf.symm.trans h)
  rw [ensure_dedup_id_of_key_vazia row h1]
  simp only [h, ne_eq, not_true_eq_false, if_false]

theorem ensure_dedup_id_nodup (row : Row) (h : (chaves row).Nodup) :
    (chaves (ensure_dedup_id row).2).Nodup := by
  by_cases h1 : rowKey row ≠ ""
  · rw [ensure_dedup_id_of_rowKey row h1]
    exact h
  · rw [not_not] at h1
    rw [rowKey] at h1
    rw [ensure_dedup_id_of_key_vazia row h1]
    by_cases h2 : infer_dedup_id row ≠ ""
    · simp only [if_pos h2]
      exact chaves_nodup_aset row _ _ h
    · simpa only [if_neg h2] using h

theorem rowUpdate_nil (b : Row) : rowUpdate b [] = b := rfl

theorem rowUpdate_cons (b : Row) (k v : String) (inc : Row) :
    rowUpdate b ((k, v) :: inc) = rowUpdate (aset b k v) inc := rfl

theorem aget_rowUpdate_not_mem (inc : Row) : ∀ (b : Row) (k : String),
    k ∉ chaves inc → aget (rowUpdate b inc) k = aget b k := by
  induction inc with
  | nil => intro b k _; rfl
  | cons p resto ih =>
    intro b k h
    simp only [chaves, List.mem_cons, not_or] at h
    rcases p with ⟨k1, v1⟩
    rw [rowUpdate_cons, ih _ _ h.2, aget_aset_ne]
    intro he
    exact h.1 he.symm

theorem aget_rowUpdate_of_nodup (inc : Row) : ∀ (b : Row) (k : String) (v : String),
    (chaves inc).Nodup → aget inc k = some v → aget (rowUpdate b inc) k = some v := by
  induction inc with
  | nil => intro b k v _ h; simp [aget] at h
  | cons p resto ih =>
    intro b k v hn h
    rcases p with ⟨k1, v1⟩
    simp only [chaves, List.nodup_cons] at hn
    by_cases hk : k1 = k
    · simp only [aget, if_pos hk] at h
      rw [rowUpdate_cons, aget_rowUpdate_not_mem resto _ k (by rw [← hk]; exact hn.1)]
      rw [← hk, aget_aset_self, h]
    · simp only [aget, if_neg hk] at h
      rw [rowUpdate_cons]
      exact ih _ _ _ hn.2 h

theorem rowKey_rowUpdate (b inc : Row) (hn : (chaves inc).Nodup) (h : rowKey inc ≠ "") :
    rowKey (rowUpdate b inc) = rowKey inc := by
  cases hg : aget inc "dedup_id" with
  | none =>
    rw [rowKey, hg] at h
    exact absurd trim_txt_vazio h
  | some w =>
    rw [rowKey, aget_rowUpdate_of_nodup inc b _ w hn hg, rowKey, hg]

/-! ### Invariant of the in-memory index of `append_coleta` -/

/-- The in-memory index is sound: every entry points to a row of `lines`
whose trimmed `dedup_id` field is the entry's key, and keys are unique. -/
def IdxOk (lines : List Row) (idx : AList Nat) : Prop :=
  (chaves idx).Nodup ∧ ∀ p ∈ idx, p.2 < lines.length ∧ rowKey (lines.getD p.2 []) = p.1

theorem idxok_nil : IdxOk [] [] := by
  constructor
  · simp [chaves]
  · intro p hp; simp at hp

theorem getD_append_concat (l : List Row) (r : Row) :
    (l ++ [r]).getD l.length [] = r := by
  simp [List.getD_eq_getElem?_getD, List.getElem?_append_right]

theorem getD_set_self_row (l : List Row) (i : Nat) (a : Row) (h : i < l.length) :
    (l.set i a).getD i [] = a := by
  simp [List.getD_eq_getElem?_getD, List.getElem?_set_self, h]

theorem getD_mem_of_lt (l : List Row) (n : Nat) (h : n < l.length) :
    l.getD n [] ∈ l := by
  rw [List.getD_eq_getElem l [] h]
  exact List.getElem_mem h

theorem idxok_append_row (lines : List Row) (idx : AList Nat) (row : Row)
    (h : IdxOk lines idx) : IdxOk (lines ++ [row]) idx := by
  refine ⟨h.1, ?_⟩
  intro p hp
  have hp' := h.2 p hp
  constructor
  · simp only [List.length_append, List.length_cons, List.length_nil]
    omega
  · rw [List.getD_append _ _ _ _ hp'.1]
    exact hp'.2

theorem idxok_aset_append (lines : List Row) (idx : AList Nat) (row : Row) (k : String)
    (h : IdxOk lines idx) (hk : rowKey row = k) :
    IdxOk (lines ++ [row]) (aset idx k lines.length) := by
  refine ⟨chaves_nodup_aset _ _ _ h.1, ?_⟩
  intro p hp
  rcases mem_aset_of_nodup idx p k lines.length h.1 hp with hp' | hp'
  · rw [hp']
    constructor
    · simp only [List.length_append, List.length_cons, List.length_nil]
      omega
    · rw [getD_append_concat]
      exact hk
  · have hold := h.2 p hp'.1
    constructor
    · simp only [List.length_append, List.length_cons, List.length_nil]
      omega
    · rw [List.getD_append _ _ _ _ hold.1]
      exact hold.2

theorem idxok_update (lines : List Row) (idx : AList Nat) (row : Row) (k : String) (i : Nat)
    (h : IdxOk lines idx) (hi : aget idx k = some i)
    (hrow : rowKey (rowUpdate (lines.getD i []) row) = k) :
    IdxOk (lines.set i (rowUpdate (lines.getD i []) row)) idx := by
  refine ⟨h.1, ?_⟩
  intro p hp
  have hold := h.2 p hp
  have hik := h.2 (k, i) (mem_of_aget_eq_some idx k i hi)
  constructor
  · rw [List.length_set]
    exact hold.1
  · by_cases hpi : p.2 = i
    · have hpk : p.1 = k := by
        rw [← hold.2, hpi, hik.2]
      rw [hpi, getD_set_self_row _ _ _ hik.1, hrow, hpk]
    · rw [List.getD_eq_getElem?_getD, List.getElem?_set_ne (fun he => hpi he.symm),
        ← List.getD_eq_getElem?_getD]
      exact hold.2

/-! ### Behaviour of the two phases of `append_coleta` -/

theorem indexa_ok : ∀ (rows acc : List Row) (idx : AList Nat), IdxOk acc idx →
    IdxOk (indexa_linhas_go rows acc idx).1 (indexa_linhas_go rows acc idx).2 := by
  intro rows
  induction rows with
  | nil => intro acc idx h; exact h
  | cons row resto ih =>
    intro acc idx h
    rw [indexa_linhas_go]
    by_cases hk : (ensure_dedup_id row).1 ≠ ""
    · simp only [if_pos hk]
      exact ih _ _ (idxok_aset_append acc idx _ _ h (ensure_dedup_id_rowKey row hk))
    · simp only [if_neg hk]
      exact ih _ _ (idxok_append_row acc idx _ h)

theorem indexa_length : ∀ (rows acc : List Row) (idx : AList Nat),
    (indexa_linhas_go rows acc idx).1.length = acc.length + rows.length := by
  intro rows
  induction rows with
  | nil => intro acc idx; simp [indexa_linhas_go]
  | cons row resto ih =>
    intro acc idx
    rw [indexa_linhas_go]
    rw [ih]
    simp only [List.length_append, List.length_cons, List.length_nil]
    omega

theorem indexa_keys_mono : ∀ (rows acc : List Row) (idx : AList Nat) (k : String),
    k ∈ chaves idx → k ∈ chaves (indexa_linhas_go rows acc idx).2 := by
  intro rows
  induction rows with
  | nil => intro acc idx k h; exact h
  | cons row resto ih =>
    intro acc idx k h
    rw [indexa_linhas_go]
    by_cases hk : (ensure_dedup_id row).1 ≠ ""
    · simp only [if_pos hk]
      exact ih _ _ _ (mem_chaves_aset idx _ k _ h)
    · simp only [if_neg hk]
      exact ih _ _ _ h

theorem indexa_keys_rowKey : ∀ (rows acc : List Row) (idx : AList Nat) (r : Row),
    r ∈ rows → rowKey r ≠ "" → rowKey r ∈ chaves (indexa_linhas_go rows acc idx).2 := by
  intro rows
  induction rows with
  | nil => intro acc idx r h; simp at h
  | cons row resto ih =>
    intro acc idx r hmem hkey
    rw [List.mem_cons] at hmem
    rw [indexa_linhas_go]
    rcases hmem with hmem | hmem
    · rw [← hmem]
      have he := ensure_dedup_id_of_rowKey r hkey
      rw [he]
      simp only [ne_eq, hkey, not_false_eq_true, if_true]
      exact indexa_keys_mono _ _ _ _ (self_mem_chaves_aset idx _ _)
    · by_cases hk : (ensure_dedup_id row).1 ≠ ""
      · simp only [if_pos hk]
        exact ih _ _ _ hmem hkey
      · simp only [if_neg hk]
        exact ih _ _ _ hmem hkey

theorem merge_linha_post (st : MergeSt) (row : Row)
    (h : IdxOk st.lines st.idx) (hn : (chaves row).Nodup)
    (hi : infer_dedup_id row ≠ "") :
    IdxOk (merge_linha st row).lines (merge_linha st row).idx ∧
    (∀ k, k ∈ chaves st.idx → k ∈ chaves (merge_linha st row).idx) ∧
    (merge_linha st row).novas = st.novas ++ [(ensure_dedup_id row).2] ∧
    rowKey (ensure_dedup_id row).2 ∈ chaves (merge_linha st row).idx := by
  have hfst : (ensure_dedup_id row).1 ≠ "" := by
    rw [ensure_dedup_id_fst]; exact hi
  have hrk : rowKey (ensure_dedup_id row).2 = (ensure_dedup_id row).1 :=
    ensure_dedup_id_rowKey row hfst
  rw [merge_linha]
  simp only [if_neg (by simpa using hfst)]
  cases hget : aget st.idx (ensure_dedup_id row).1 with
  | some i =>
    refine ⟨?_, ?_, rfl, ?_⟩
    · apply idxok_update st.lines st.idx _ _ i h hget
      rw [rowKey_rowUpdate _ _ (ensure_dedup_id_nodup row hn) (by rw [hrk]; exact hfst)]
      exact hrk
    · intro k hk; exact hk
    · rw [hrk]
      exact mem_chaves_of_aget_eq_some st.idx _ i hget
  | none =>
    refine ⟨?_, ?_, rfl, ?_⟩
    · exact idxok_aset_append st.lines st.idx _ _ h hrk
    · intro k hk; exact mem_chaves_aset st.idx _ k _ hk
    · rw [hrk]
      exact self_mem_chaves_aset st.idx _ _

theorem merge_post : ∀ (rows : List Row) (st : MergeSt),
    IdxOk st.lines st.idx →
    (∀ r ∈ rows, (chaves r).Nodup ∧ infer_dedup_id r ≠ "") →
    IdxOk (merge_linhas st rows).lines (merge_linhas st rows).idx ∧
    (∀ k, k ∈ chaves st.idx → k ∈ chaves (merge_linhas st rows).idx) ∧
    (merge_linhas st rows).novas.length = st.novas.length + rows.length ∧
    (∀ r ∈ (merge_linhas st rows).novas, r ∈ st.novas ∨
      (rowKey r ≠ "" ∧ rowKey r ∈ chaves (merge_linhas st rows).idx)) := by
  intro rows
  induction rows with
  | nil =>
    intro st h _
    exact ⟨h, fun k hk => hk, by simp [merge_linhas], fun r hr => Or.inl hr⟩
  | cons row resto ih =>
    intro st h hrows
    have hrow := hrows row (List.mem_cons_self _ _)
    have hstep := merge_linha_post st row h hrow.1 hrow.2
    have hresto : ∀ r ∈ resto, (chaves r).Nodup ∧ infer_dedup_id r ≠ "" :=
      fun r hr => hrows r (List.mem_cons_of_mem _ hr)
    have hih := ih (merge_linha st row) hstep.1 hresto
    rw [merge_linhas]
    refine ⟨hih.1, ?_, ?_, ?_⟩
    · intro k hk
      exact hih.2.1 k (hstep.2.1 k hk)
    · rw [hih.2.2.1, hstep.2.2.1]
      simp only [List.length_append, List.length_cons, List.length_nil]
      omega
    · intro r hr
      rcases hih.2.2.2 r hr with hcase | hcase
      · rw [hstep.2.2.1] at hcase
        rw [List.mem_append] at hcase
        rcases hcase with hcase | hcase
        · exact Or.inl hcase
        · rw [List.mem_singleton] at hcase
          refine Or.inr ?_
          rw [hcase]
          have hfst : (ensure_dedup_id row).1 ≠ "" := by
            rw [ensure_dedup_id_fst]; exact hrow.2
          constructor
          · rw [ensure_dedup_id_rowKey row hfst]; exact hfst
          · exact hih.2.1 _ hstep.2.2.2
      · exact Or.inr hcase

theorem merge_count : ∀ (rows : List Row) (st : MergeSt),
    (∀ r ∈ rows, rowKey r ≠ "" ∧ rowKey r ∈ chaves st.idx) →
    (merge_linhas st rows).lines.length = st.lines.length ∧
    (merge_linhas st rows).idx = st.idx ∧
    (merge_linhas st rows).adicionados = st.adicionados ∧
    (merge_linhas st rows).atualizados = st.atualizados + rows.length := by
  intro rows
  induction rows with
  | nil => intro st _; exact ⟨rfl, rfl, rfl, rfl⟩
  | cons row resto ih =>
    intro st h
    have hrow := h row (List.mem_cons_self _ _)
    have hsome := aget_isSome_of_mem_chaves st.idx _ hrow.2
    rw [Option.isSome_iff_exists] at hsome
    obtain ⟨i, hget⟩ := hsome
    have hstep : merge_linha st row =
        { st with lines := st.lines.set i (rowUpdate (st.lines.getD i []) row),
                  atualizados := st.atualizados + 1, novas := st.novas ++ [row] } := by
      rw [merge_linha, ensure_dedup_id_of_rowKey row hrow.1]
      simp only [if_neg (by simpa using hrow.1)]
      rw [hget]
    have hkeys : ∀ r ∈ resto, rowKey r ≠ "" ∧ rowKey r ∈ chaves (merge_linha st row).idx := by
      intro r hr
      rw [hstep]
      exact h r (List.mem_cons_of_mem _ hr)
    have hih := ih (merge_linha st row) hkeys
    rw [merge_linhas]
    refine ⟨?_, ?_, ?_, ?_⟩
    · rw [hih.1, hstep]
      simp [List.length_set]
    · rw [hih.2.1, hstep]
    · rw [hih.2.2.1, hstep]
    · rw [hih.2.2.2, hstep]
      simp only [List.length_cons]
      omega

theorem mem_aset_weak {β : Type} (l : AList β) (p : String × β) (k : String) (v : β) :
    p ∈ aset l k v → p = (k, v) ∨ p ∈ l := by
  induction l with
  | nil =>
    intro h
    simp only [aset, List.mem_cons, List.not_mem_nil, or_false] at h
    exact Or.inl h
  | cons q resto ih =>
    intro h
    by_cases hq : q.1 = k
    · rw [aset, if_pos hq] at h
      rw [List.mem_cons] at h
      rcases h with h | h
      · exact Or.inl h
      · exact Or.inr (List.mem_cons_of_mem _ h)
    · rw [aset, if_neg hq] at h
      rw [List.mem_cons] at h
      rcases h with h | h
      · exact Or.inr (by rw [h]; exact List.mem_cons_self _ _)
      · rcases ih h with h' | h'
        · exact Or.inl h'
        · exact Or.inr (List.mem_cons_of_mem _ h')

theorem merge_linha_novas (st : MergeSt) (row : Row) :
    (merge_linha st row).novas = st.novas ++ [(ensure_dedup_id row).2] := by
  rw [merge_linha]
  by_cases h : (ensure_dedup_id row).1 = ""
  · simp [h]
  · simp only [if_neg h]
    cases aget st.idx (ensure_dedup_id row).1 <;> rfl

theorem merge_novas_map : ∀ (rows : List Row) (st : MergeSt),
    (merge_linhas st rows).novas = st.novas ++ rows.map (fun r => (ensure_dedup_id r).2) := by
  intro rows
  induction rows with
  | nil => intro st; simp [merge_linhas]
  | cons row resto ih =>
    intro st
    rw [merge_linhas, ih, merge_linha_novas]
    simp

theorem indexa_map : ∀ (rows acc : List Row) (idx : AList Nat),
    (indexa_linhas_go rows acc idx).1 = acc ++ rows.map (fun r => (ensure_dedup_id r).2) := by
  intro rows
  induction rows with
  | nil => intro acc idx; simp [indexa_linhas_go]
  | cons row resto ih =>
    intro acc idx
    rw [indexa_linhas_go]
    by_cases h : (ensure_dedup_id row).1 ≠ ""
    · simp only [if_pos h]
      rw [ih]
      simp
    · simp only [if_neg h]
      rw [ih]
      simp

theorem merge_idxok_any (st : MergeSt) (row : Row)
    (h : IdxOk st.lines st.idx) (hn : (chaves row).Nodup) :
    IdxOk (merge_linha st row).lines (merge_linha st row).idx := by
  rw [merge_linha]
  by_cases hfst : (ensure_dedup_id row).1 = ""
  · simp only [if_pos hfst]
    exact idxok_append_row st.lines st.idx _ h
  · simp only [if_neg hfst]
    have hrk : rowKey (ensure_dedup_id row).2 = (ensure_dedup_id row).1 :=
      ensure_dedup_id_rowKey row hfst
    cases hget : aget st.idx (ensure_dedup_id row).1 with
    | some i =>
      apply idxok_update st.lines st.idx _ _ i h hget
      rw [rowKey_rowUpdate _ _ (ensure_dedup_id_nodup row hn) (by rw [hrk]; exact hfst)]
      exact hrk
    | none =>
      exact idxok_aset_append st.lines st.idx _ _ h hrk

theorem merge_preserva_pos : ∀ (rows : List Row) (st : MergeSt) (q : Nat),
    q < st.lines.length →
    (∀ p ∈ st.idx, p.2 ≠ q) →
    (merge_linhas st rows).lines.getD q [] = st.lines.getD q [] ∧
    q < (merge_linhas st rows).lines.length := by
  intro rows
  induction rows with
  | nil => intro st q hq _; exact ⟨rfl, hq⟩
  | cons row resto ih =>
    intro st q hq hidx
    rw [merge_linhas]
    have trans_fact : (merge_linha st row).lines.getD q [] = st.lines.getD q [] ∧
        q < (merge_linha st row).lines.length ∧
        (∀ p ∈ (merge_linha st row).idx, p.2 ≠ q) := by
      rw [merge_linha]
      by_cases hfst : (ensure_dedup_id row).1 = ""
      · simp only [if_pos hfst]
        refine ⟨List.getD_append _ _ _ _ hq, ?_, hidx⟩
        simp only [List.length_append, List.length_cons, List.length_nil]
        omega
      · simp only [if_neg hfst]
        cases hget : aget st.idx (ensure_dedup_id row).1 with
        | some i =>
          have hiq : i ≠ q := hidx _ (mem_of_aget_eq_some st.idx _ i hget)
          refine ⟨?_, ?_, hidx⟩
          · rw [List.getD_eq_getElem?_getD, List.getElem?_set_ne hiq,
              ← List.getD_eq_getElem?_getD]
          · rw [List.length_set]
            exact hq
        | none =>
          refine ⟨List.getD_append _ _ _ _ hq, ?_, ?_⟩
          · simp only [List.length_append, List.length_cons, List.length_nil]
            omega
          · intro p hp
            rcases mem_aset_weak st.idx p _ _ hp with hp' | hp'
            · rw [hp']
              intro hcon
              simp only at hcon
              omega
            · exact hidx p hp'
    have hih := ih (merge_linha st row) q trans_fact.2.1 trans_fact.2.2
    exact ⟨hih.1.trans trans_fact.1, hih.2⟩

theorem merge_mem_no_key : ∀ (rows : List Row) (st : MergeSt) (r : Row),
    IdxOk st.lines st.idx →
    (∀ x ∈ rows, (chaves x).Nodup) →
    r ∈ rows → infer_dedup_id r = "" →
    r ∈ (merge_linhas st rows).lines := by
  intro rows
  induction rows with
  | nil => intro st r _ _ h; simp at h
  | cons row resto ih =>
    intro st r hok hn hmem hinf
    rw [List.mem_cons] at hmem
    rw [merge_linhas]
    rcases hmem with hmem | hmem
    · subst hmem
      have hfst : (ensure_dedup_id r).1 = "" := by
        rw [ensure_dedup_id_fst]; exact hinf
      have hsnd : (ensure_dedup_id r).2 = r := ensure_dedup_id_snd_of_vazio r hinf
      have hlines : (merge_linha st r).lines = st.lines ++ [r] := by
        rw [merge_linha]
        simp only [if_pos hfst, hsnd]
      have hidx2 : (merge_linha st r).idx = st.idx := by
        rw [merge_linha]
        simp only [if_pos hfst]
      have hq : st.lines.length < (merge_linha st r).lines.length := by
        rw [hlines]
        simp
      have hpos := merge_preserva_pos resto (merge_linha st r) st.lines.length hq
        (by intro p hp
            rw [hidx2] at hp
            have := hok.2 p hp
            omega)
      have hval : (merge_linha st r).lines.getD st.lines.length [] = r := by
        rw [hlines]
        exact getD_append_concat st.lines r
      have hmem2 := getD_mem_of_lt _ _ hpos.2
      rw [hpos.1.trans hval] at hmem2
      exact hmem2
    · exact ih (merge_linha st row) r (merge_idxok_any st _ hok (hn _ (List.mem_cons_self _ _)))
        (fun x hx => hn x (List.mem_cons_of_mem _ hx)) hmem hinf

/-! ### Claim C1 -/

/-- C1, counterexample: the claim as stated is false.  Appending the same
one-row list (a row with no identifier field at all) twice to a fresh
planilha appends the row again: `row_count` grows from 1 to 2 and the second
call reports `updated_count = 0`, not `len(L) = 1`. -/
theorem append_coleta_sem_dedup_id_duplica :
    (append_coleta create_planilha [[("Produto", "X")]]).planilha.row_count = 1 ∧
    (append_coleta (append_coleta create_planilha [[("Produto", "X")]]).planilha
        (append_coleta create_planilha [[("Produto", "X")]]).novas_linhas).planilha.row_count
      = 2 ∧
    (append_coleta (append_coleta create_planilha [[("Produto", "X")]]).planilha
        (append_coleta create_planilha [[("Produto", "X")]]).novas_linhas).atualizados = 0 := by
  decide

/-- C1 (amended): for rows that carry an inferable dedup key (a non-blank
`dedup_id`, `id_line_item`, `line_item_id` or `transaction_id` field),
`append_coleta` is idempotent: re-appending the same (in-place mutated) list
leaves `row_count` unchanged and the second call reports
`updated_count = len(L)` and `added_count = 0`. -/
theorem append_coleta_reaplicacao_identica (p : Planilha) (novas : List Row)
    (hW : ∀ r ∈ novas, (chaves r).Nodup)
    (hI : ∀ r ∈ novas, infer_dedup_id r ≠ "") :
    (append_coleta (append_coleta p novas).planilha
        (append_coleta p novas).novas_linhas).planilha.row_count
      = (append_coleta p novas).planilha.row_count ∧
    (append_coleta (append_coleta p novas).planilha
        (append_coleta p novas).novas_linhas).atualizados = novas.length ∧
    (append_coleta (append_coleta p novas).planilha
        (append_coleta p novas).novas_linhas).adicionados = 0 := by
  simp only [append_coleta]
  have hok1 : IdxOk (indexa_linhas_go p.lines [] []).1 (indexa_linhas_go p.lines [] []).2 :=
    indexa_ok _ _ _ idxok_nil
  have hpost := merge_post novas
    ⟨(indexa_linhas_go p.lines [] []).1, (indexa_linhas_go p.lines [] []).2, 0, 0, []⟩
    hok1 (fun r hr => ⟨hW r hr, hI r hr⟩)
  have hkeys : ∀ r ∈ (merge_linhas
      ⟨(indexa_linhas_go p.lines [] []).1, (indexa_linhas_go p.lines [] []).2, 0, 0, []⟩
      novas).novas,
      rowKey r ≠ "" ∧ rowKey r ∈ chaves (indexa_linhas_go (merge_linhas
        ⟨(indexa_linhas_go p.lines [] []).1, (indexa_linhas_go p.lines [] []).2, 0, 0, []⟩
        novas).lines [] []).2 := by
    intro r hr
    rcases hpost.2.2.2 r hr with hc | hc
    · simp at hc
    · refine ⟨hc.1, ?_⟩
      have hsome := aget_isSome_of_mem_chaves _ _ hc.2
      rw [Option.isSome_iff_exists] at hsome
      obtain ⟨i, hget⟩ := hsome
      have hentry := hpost.1.2 (rowKey r, i) (mem_of_aget_eq_some _ _ _ hget)
      have hxmem := getD_mem_of_lt _ i hentry.1
      have hfin := indexa_keys_rowKey _ [] [] _ hxmem (by rw [hentry.2]; exact hc.1)
      rw [hentry.2] at hfin
      exact hfin
  have hcount := merge_count
    ((merge_linhas ⟨(indexa_linhas_go p.lines [] []).1,
      (indexa_linhas_go p.lines [] []).2, 0, 0, []⟩ novas).novas)
    ⟨(indexa_linhas_go (merge_linhas ⟨(indexa_linhas_go p.lines [] []).1,
        (indexa_linhas_go p.lines [] []).2, 0, 0, []⟩ novas).lines [] []).1,
      (indexa_linhas_go (merge_linhas ⟨(indexa_linhas_go p.lines [] []).1,
        (indexa_linhas_go p.lines [] []).2, 0, 0, []⟩ novas).lines [] []).2, 0, 0, []⟩
    hkeys
  refine ⟨?_, ?_, ?_⟩
  · rw [hcount.1]
    have hlen := indexa_length (merge_linhas ⟨(indexa_linhas_go p.lines [] []).1,
      (indexa_linhas_go p.lines [] []).2, 0, 0, []⟩ novas).lines [] []
    simp only [List.length_nil] at hlen
    simpa using hlen
  · rw [hcount.2.2.2]
    have hnovas := hpost.2.2.1
    simp only [List.length_nil] at hnovas
    simpa using hnovas
  · exact hcount.2.2.1

/-- C1, witness for the amended theorem at a concrete store and row list. -/
theorem append_coleta_reaplicacao_identica_witness :
    (append_coleta (append_coleta create_planilha
        [[("transaction_id", "t1")], [("id_line_item", "L9"), ("Produto", "Cafe")]]).planilha
      (append_coleta create_planilha
        [[("transaction_id", "t1")], [("id_line_item", "L9"), ("Produto", "Cafe")]]).novas_linhas
      ).planilha.row_count
      = (append_coleta create_planilha
        [[("transaction_id", "t1")], [("id_line_item", "L9"), ("Produto", "Cafe")]]
        ).planilha.row_count ∧
    (append_coleta (append_coleta create_planilha
        [[("transaction_id", "t1")], [("id_line_item", "L9"), ("Produto", "Cafe")]]).planilha
      (append_coleta create_planilha
        [[("transaction_id", "t1")], [("id_line_item", "L9"), ("Produto", "Cafe")]]).novas_linhas
      ).atualizados = 2 ∧
    (append_coleta (append_coleta create_planilha
        [[("transaction_id", "t1")], [("id_line_item", "L9"), ("Produto", "Cafe")]]).planilha
      (append_coleta create_planilha
        [[("transaction_id", "t1")], [("id_line_item", "L9"), ("Produto", "Cafe")]]).novas_linhas
      ).adicionados = 0 :=
  append_coleta_reaplicacao_identica create_planilha
    [[("transaction_id", "t1")], [("id_line_item", "L9"), ("Produto", "Cafe")]]
    (by decide) (by decide)

/-! ### Claim C10 -/

/-- C10: `append_coleta` mutates its arguments in place.  The caller-visible
rows after the call are exactly the `_ensure_dedup_id_inplace`-processed
rows; a row whose `dedup_id` is missing/blank gets a `dedup_id` entry
written into it whenever one can be inferred (and the inference, once the
`dedup_id` field itself is blank, comes from `id_line_item`, `line_item_id`
or `transaction_id`); a row with no inferable key is left unchanged and
still appended to the store; already-stored rows are likewise processed in
place by the indexing phase. -/
theorem append_coleta_muta_dedup_id_inplace (p : Planilha) (novas : List Row)
    (hW : ∀ x ∈ novas, (chaves x).Nodup) :
    (append_coleta p novas).novas_linhas = novas.map (fun r => (ensure_dedup_id r).2) ∧
    (∀ r : Row, rowKey r = "" → infer_dedup_id r ≠ "" →
      (ensure_dedup_id r).2 = aset r "dedup_id" (infer_dedup_id r) ∧
      aget (ensure_dedup_id r).2 "dedup_id" = some (infer_dedup_id r)) ∧
    (∀ r : Row, rowKey r = "" →
      infer_dedup_id r = infer_dedup_go r ["id_line_item", "line_item_id", "transaction_id"]) ∧
    (∀ r : Row, infer_dedup_id r = "" → (ensure_dedup_id r).2 = r) ∧
    (indexa_linhas_go p.lines [] []).1 = p.lines.map (fun r => (ensure_dedup_id r).2) ∧
    (∀ r ∈ novas, infer_dedup_id r = "" → r ∈ (append_coleta p novas).planilha.lines) := by
  refine ⟨?_, ?_, ?_, ?_, ?_, ?_⟩
  · simp only [append_coleta]
    have h := merge_novas_map novas
      ⟨(indexa_linhas_go p.lines [] []).1, (indexa_linhas_go p.lines [] []).2, 0, 0, []⟩
    simpa using h
  · intro r h1 h2
    rw [rowKey] at h1
    rw [ensure_dedup_id_of_key_vazia r h1, if_pos h2]
    exact ⟨rfl, aget_aset_self r "dedup_id" (infer_dedup_id r)⟩
  · intro r h1
    rw [rowKey] at h1
    cases hg : aget r "dedup_id" with
    | none =>
      rw [infer_dedup_id, infer_dedup_go, hg]
    | some v =>
      rw [hg] at h1
      simp only [Option.getD_some] at h1
      rw [infer_dedup_id, infer_dedup_go, hg]
      simp only [ne_eq, h1, not_true_eq_false, if_false]
  · intro r h
    exact ensure_dedup_id_snd_of_vazio r h
  · have h := indexa_map p.lines [] []
    simpa using h
  · intro r hr hinf
    simp only [append_coleta]
    exact merge_mem_no_key novas _ r (indexa_ok _ _ _ idxok_nil) hW hr hinf

/-- C10, witness: the theorem applied to a concrete store and row list. -/
theorem append_coleta_muta_dedup_id_inplace_witness :
    (append_coleta create_planilha [[("line_item_id", " L7 ")]]).novas_linhas
      = [[("line_item_id", " L7 ")]].map (fun r => (ensure_dedup_id r).2) ∧
    (∀ r : Row, rowKey r = "" → infer_dedup_id r ≠ "" →
      (ensure_dedup_id r).2 = aset r "dedup_id" (infer_dedup_id r) ∧
      aget (ensure_dedup_id r).2 "dedup_id" = some (infer_dedup_id r)) ∧
    (∀ r : Row, rowKey r = "" →
      infer_dedup_id r = infer_dedup_go r ["id_line_item", "line_item_id", "transaction_id"]) ∧
    (∀ r : Row, infer_dedup_id r = "" → (ensure_dedup_id r).2 = r) ∧
    (indexa_linhas_go create_planilha.lines [] []).1
      = create_planilha.lines.map (fun r => (ensure_dedup_id r).2) ∧
    (∀ r ∈ [[("line_item_id", " L7 ")]], infer_dedup_id r = "" →
      r ∈ (append_coleta create_planilha [[("line_item_id", " L7 ")]]).planilha.lines) :=
  append_coleta_muta_dedup_id_inplace create_planilha [[("line_item_id", " L7 ")]] (by decide)

/-! ### Catalog (`skus.json`) and `loader_produtos_info.py` -/

/-- One catalog entry (`SKUInfo` of `loader_produtos_info.py`). -/
structure SKUInfoE where
  sku : String := ""
  peso : Int := 0
  composto_de : List String := []
  guru_ids : List String := []
  periodicidade : String := ""
  tipo : String := ""
  indisponivel : Bool := false
deriving DecidableEq

/-- The catalog: product name -> `SKUInfoE`, in insertion order. -/
abbrev SKUsInfo : Type := AList SKUInfoE

/-- External `unidecode` transliteration collaborator; it is the identity on
ASCII input, and every string modelled in this development is ASCII. -/
def unidecode_ascii (s : String) : String := s

/-- Name normalization of `_find_info_by_name`:
`unidecode(str(nome)).lower().strip()`. -/
def norm_nome_loader (s : String) : String := trim_txt (minuscula (unidecode_ascii s))

/-- `_find_info_by_name(nome, skus)`. -/
def find_info_by_name (nome : String) (skus : SKUsInfo) : Option SKUInfoE :=
  if nome = "" then none
  else
    match aget skus nome with
    | some info => some info
    | none => (skus.find? (fun p => norm_nome_loader p.1 = norm_nome_loader nome)).map (·.2)

/-- `_find_info_by_sku(sku, skus)`. -/
def find_info_by_sku (sku : String) (skus : SKUsInfo) : Option SKUInfoE :=
  if sku = "" then none
  else (skus.find? (fun p => maiuscula (trim_txt p.2.sku) = maiuscula (trim_txt sku))).map (·.2)

/-- Truthiness of an optional string (Python `not sku`). -/
def opt_nao_vazio (s : Option String) : Bool :=
  match s with
  | some v => v ≠ ""
  | none => false

/-- `produto_indisponivel(produto_nome, skus_info=..., sku=...)`. -/
def produto_indisponivel (produto_nome : String) (sku : Option String)
    (skus : SKUsInfo) : Bool :=
  if produto_nome = "" && !(opt_nao_vazio sku) then false
  else
    let info1 := if produto_nome ≠ "" then find_info_by_name produto_nome skus else none
    let info2 := if info1.isNone && opt_nao_vazio sku then
        find_info_by_sku (sku.getD "") skus else info1
    match info2 with
    | some i => i.indisponivel
    | none => false

/-! ### `desmembrar_combo_planilha` of `bling_planilha_guru.py` -/

/-- The fields of `valores` read by `desmembrar_combo_planilha`.
`valor_total` is the `Decimal` produced by `_to_dec`, in cents. -/
structure ValoresCombo where
  produto_principal : String := ""
  valor_total : Int := 0

/-- `dict.setdefault(k, v)`. -/
def asetdefault {β : Type} (l : AList β) (k : String) (v : β) : AList β :=
  if (aget l k).isSome then l else l ++ [(k, v)]

/-- The `sku_to_nome` auxiliary map of `desmembrar_combo_planilha`. -/
def monta_sku_to_nome (skus : SKUsInfo) : AList String :=
  skus.foldl (fun acc p =>
    if trim_txt p.2.sku ≠ "" then asetdefault acc (trim_txt p.2.sku) p.1 else acc) []

/-- The `nome_to_sku` auxiliary map of `desmembrar_combo_planilha`. -/
def monta_nome_to_sku (skus : SKUsInfo) : AList String :=
  skus.foldl (fun acc p => asetdefault acc p.1 (trim_txt p.2.sku)) []

/-- Resolution of one combo component into `(nome_item, sku_item)`:
a known SKU, a known product name, or the fallback `(comp, comp)`. -/
def resolve_componente (s2n n2s : AList String) (comp : String) : String × String :=
  match aget s2n comp with
  | some nome => (nome, comp)
  | none =>
    match aget n2s comp with
    | some sku => (comp, sku)
    | none => (comp, comp)

/-- Formatting of a cent amount as the `"12,34"` strings of `_fmt`
(`f"{d:.2f}".replace(".", ",")`). -/
def fmt_moeda (cents : Int) : String :=
  let a := cents.natAbs
  let frac := a % 100
  (if cents < 0 then "-" else "") ++ toString (a / 100) ++ "," ++
    (if frac < 10 then "0" ++ toString frac else toString frac)

/-- Round-half-up of `x / n` for positive `x` (what
`(total / n).quantize(Decimal("0.01"), ROUND_HALF_UP)` computes when `x` is
the total in cents). -/
def round_half_up_cents (x : Int) (n : Nat) : Int := (2 * x + n) / (2 * n)

/-- Per-component cent values of the combo decomposition: all zero when the
total is ≤ 0; otherwise `quota = round_half_up(total/n)` for every component
but the last, the last taking `total - quota*(n-1)`. -/
def rateio_combo (total : Int) (n : Nat) : List Int :=
  if total ≤ 0 then List.replicate n 0
  else
    List.replicate (n - 1) (round_half_up_cents total n) ++
      [total - round_half_up_cents total n * (n - 1)]

/-- The `(nome_item, sku_item)` list resolved by `desmembrar_combo_planilha`
for the combo named in `valores`. -/
def componentes_combo (valores : ValoresCombo) (skus_info : SKUsInfo) :
    List (String × String) :=
  let nome_combo := trim_txt valores.produto_principal
  let info_combo := (aget skus_info nome_combo).getD {}
  ((info_combo.composto_de.map trim_txt).filter (· ≠ "")).map
    (resolve_componente (monta_sku_to_nome skus_info) (monta_nome_to_sku skus_info))

/-- One emitted combo-component line (`nova` in the source): the base line
with product, SKU, the formatted value, the combo name, the mandatory
`dedup_id = "tid:SKU_UPPER"` and the availability flag. -/
def monta_linha_combo (tid nome_combo : String) (linha_base : Row) (skus : SKUsInfo)
    (item : (String × String) × Int) : Except String Row :=
  let nome_item := item.1.1
  let sku_item := item.1.2
  let sku_norm := maiuscula (trim_txt sku_item)
  if sku_norm = "" then .error "Componente de combo sem SKU resolvido"
  else
    .ok (aset (aset (aset (aset (aset (aset (aset linha_base
      "Produto" nome_item)
      "SKU" sku_item)
      "Valor Unitário" (fmt_moeda item.2))
      "Valor Total" (fmt_moeda item.2))
      "Combo" nome_combo)
      "dedup_id" (tid ++ ":" ++ sku_norm))
      "indisponivel" (if produto_indisponivel nome_item (some sku_item) skus then "S" else ""))

/-- The emission loop of `desmembrar_combo_planilha` over resolved
components paired with their cent values. -/
def monta_linhas_combo (tid nome_combo : String) (linha_base : Row) (skus : SKUsInfo) :
    List ((String × String) × Int) → Except String (List Row)
  | [] => .ok []
  | item :: resto =>
    match monta_linha_combo tid nome_combo linha_base skus item,
          monta_linhas_combo tid nome_combo linha_base skus resto with
    | .ok l, .ok ls => .ok (l :: ls)
    | .error e, _ => .error e
    | .ok _, .error e => .error e

/-- `desmembrar_combo_planilha(valores, linha_base, skus_info)`.  The two
emission loops of the source (`total <= 0` at zero value, positive total at
the prorated values) are both rendered through `rateio_combo`, which returns
the per-component cent values of the corresponding branch. -/
def desmembrar_combo_planilha (valores : ValoresCombo) (linha_base : Row)
    (skus_info : SKUsInfo) : Except String (List Row) :=
  let tid_base := trim_txt ((aget linha_base "transaction_id").getD "")
  if tid_base = "" then .error "linha_base sem transaction_id"
  else
    let itens := componentes_combo valores skus_info
    if itens.length = 0 then .ok [linha_base]
    else
      monta_linhas_combo tid_base (trim_txt valores.produto_principal) linha_base skus_info
        (itens.zip (rateio_combo valores.valor_total itens.length))

/-! ### Lemmas about the combo decomposition -/

theorem rateio_combo_length (total : Int) (n : Nat) (hn : 1 ≤ n) :
    (rateio_combo total n).length = n := by
  rw [rateio_combo]
  by_cases h : total ≤ 0
  · simp [h]
  · simp only [if_neg h, List.length_append, List.length_replicate, List.length_cons,
      List.length_nil]
    omega

theorem rateio_combo_sum (total : Int) (n : Nat) (h : 0 < total) :
    (rateio_combo total n).sum = total := by
  rw [rateio_combo, if_neg (by omega)]
  rw [List.sum_append, List.sum_replicate, List.sum_cons, List.sum_nil]
  rw [nsmul_eq_mul]
  cases n with
  | zero => simp [round_half_up_cents]
  | succ m =>
    push_cast [Nat.succ_sub_one]
    ring

theorem rateio_combo_quota (total : Int) (n : Nat) (h : 0 < total) (i : Nat)
    (hi : i < n - 1) :
    (rateio_combo total n).getD i 0 = round_half_up_cents total n := by
  rw [rateio_combo, if_neg (by omega)]
  rw [List.getD_append _ _ _ _ (by simp; omega)]
  rw [List.getD_eq_getElem?_getD, List.getElem?_replicate, if_pos hi]
  rfl

theorem rateio_combo_zero (total : Int) (n : Nat) (h : total ≤ 0) :
    rateio_combo total n = List.replicate n 0 := by
  rw [rateio_combo, if_pos h]

theorem map_zip_snd {α β γ : Type} (f : β → γ) : ∀ (as : List α) (bs : List β),
    as.length = bs.length → (as.zip bs).map (fun p => f p.2) = bs.map f := by
  intro as
  induction as with
  | nil =>
    intro bs h
    cases bs with
    | nil => rfl
    | cons b bs => simp at h
  | cons a resto ih =>
    intro bs h
    cases bs with
    | nil => simp at h
    | cons b bs =>
      simp only [List.zip_cons_cons, List.map_cons]
      rw [ih bs (by simpa using h)]

theorem map_zip_fst {α β γ : Type} (g : α → γ) : ∀ (as : List α) (bs : List β),
    as.length = bs.length → (as.zip bs).map (fun p => g p.1) = as.map g := by
  intro as
  induction as with
  | nil =>
    intro bs h
    cases bs with
    | nil => rfl
    | cons b bs => simp at h
  | cons a resto ih =>
    intro bs h
    cases bs with
    | nil => simp at h
    | cons b bs =>
      simp only [List.zip_cons_cons, List.map_cons]
      rw [ih bs (by simpa using h)]

theorem length_zip_eq {α β : Type} (as : List α) (bs : List β)
    (h : as.length = bs.length) : (as.zip bs).length = as.length := by
  rw [List.length_zip, h, Nat.min_self]

theorem monta_linha_combo_campos (tid nome_combo : String) (linha_base : Row)
    (skus : SKUsInfo) (item : (String × String) × Int)
    (h : maiuscula (trim_txt item.1.2) ≠ "") :
    ∃ l, monta_linha_combo tid nome_combo linha_base skus item = .ok l ∧
      aget l "Valor Unitário" = some (fmt_moeda item.2) ∧
      aget l "Valor Total" = some (fmt_moeda item.2) ∧
      aget l "dedup_id" = some (tid ++ ":" ++ maiuscula (trim_txt item.1.2)) := by
  rw [monta_linha_combo]
  simp only [if_neg h]
  refine ⟨_, rfl, ?_, ?_, ?_⟩
  · rw [aget_aset_ne _ _ (by decide), aget_aset_ne _ _ (by decide),
      aget_aset_ne _ _ (by decide), aget_aset_ne _ _ (by decide)]
    exact aget_aset_self _ _ _
  · rw [aget_aset_ne _ _ (by decide), aget_aset_ne _ _ (by decide),
      aget_aset_ne _ _ (by decide)]
    exact aget_aset_self _ _ _
  · rw [aget_aset_ne _ _ (by decide)]
    exact aget_aset_self _ _ _

theorem monta_linhas_combo_ok (tid nome_combo : String) (linha_base : Row)
    (skus : SKUsInfo) : ∀ (itens : List ((String × String) × Int)),
    (∀ it ∈ itens, maiuscula (trim_txt it.1.2) ≠ "") →
    ∃ ls, monta_linhas_combo tid nome_combo linha_base skus itens = .ok ls ∧
      ls.length = itens.length ∧
      ls.map (fun r => aget r "Valor Unitário")
        = itens.map (fun it => some (fmt_moeda it.2)) ∧
      ls.map (fun r => aget r "dedup_id")
        = itens.map (fun it => some (tid ++ ":" ++ maiuscula (trim_txt it.1.2))) := by
  intro itens
  induction itens with
  | nil => intro _; exact ⟨[], rfl, rfl, rfl, rfl⟩
  | cons item resto ih =>
    intro hall
    obtain ⟨l, hl, hvu, hvt, hdid⟩ := monta_linha_combo_campos tid nome_combo linha_base
      skus item (hall item (List.mem_cons_self _ _))
    obtain ⟨ls, hls, hlen, hmap1, hmap2⟩ := ih (fun it hit => hall it (List.mem_cons_of_mem _ hit))
    refine ⟨l :: ls, ?_, ?_, ?_, ?_⟩
    · rw [monta_linhas_combo, hl, hls]
    · simp [hlen]
    · simp only [List.map_cons, hvu, hmap1]
    · simp only [List.map_cons, hdid, hmap2]

/-! ### Claim C2 -/

/-- C2: for a combo with at least one resolved component (each resolving to
a non-blank SKU) and a base line with a transaction id,
`desmembrar_combo_planilha` emits exactly one line per component; each
line's unit value is `round_half_up(total/n)` cents except the last, which
absorbs the remainder so that the values sum to the total exactly; a total
≤ 0 yields all-zero component values. -/
theorem desmembrar_combo_soma_exata (valores : ValoresCombo) (linha_base : Row)
    (skus_info : SKUsInfo)
    (htid : trim_txt ((aget linha_base "transaction_id").getD "") ≠ "")
    (hne : componentes_combo valores skus_info ≠ [])
    (hsku : ∀ it ∈ componentes_combo valores skus_info, maiuscula (trim_txt it.2) ≠ "") :
    ∃ linhas, desmembrar_combo_planilha valores linha_base skus_info = .ok linhas ∧
      linhas.length = (componentes_combo valores skus_info).length ∧
      linhas.map (fun r => aget r "Valor Unitário")
        = (rateio_combo valores.valor_total
            (componentes_combo valores skus_info).length).map (fun v => some (fmt_moeda v)) ∧
      (0 < valores.valor_total →
        (rateio_combo valores.valor_total (componentes_combo valores skus_info).length).sum
          = valores.valor_total ∧
        ∀ i : Nat, i < (componentes_combo valores skus_info).length - 1 →
          (rateio_combo valores.valor_total
            (componentes_combo valores skus_info).length).getD i 0
            = round_half_up_cents valores.valor_total
                (componentes_combo valores skus_info).length) ∧
      (valores.valor_total ≤ 0 →
        rateio_combo valores.valor_total (componentes_combo valores skus_info).length
          = List.replicate (componentes_combo valores skus_info).length 0) := by
  have hn1 : 1 ≤ (componentes_combo valores skus_info).length := by
    cases hc : componentes_combo valores skus_info with
    | nil => exact absurd hc hne
    | cons a resto => simp [hc]
  have hzlen : (componentes_combo valores skus_info).length =
      (rateio_combo valores.valor_total (componentes_combo valores skus_info).length).length :=
    (rateio_combo_length _ _ hn1).symm
  obtain ⟨ls, hls, hlen, hmap1, _⟩ := monta_linhas_combo_ok
    (trim_txt ((aget linha_base "transaction_id").getD ""))
    (trim_txt valores.produto_principal) linha_base skus_info
    ((componentes_combo valores skus_info).zip
      (rateio_combo valores.valor_total (componentes_combo valores skus_info).length))
    (by intro it hit
        exact hsku it.1 (List.of_mem_zip hit).1)
  refine ⟨ls, ?_, ?_, ?_, ?_, ?_⟩
  · rw [desmembrar_combo_planilha]
    rw [if_neg htid, if_neg (by omega)]
    exact hls
  · rw [hlen, length_zip_eq _ _ hzlen]
  · rw [hmap1]
    exact map_zip_snd (fun v => some (fmt_moeda v)) _ _ hzlen
  · intro hpos
    exact ⟨rateio_combo_sum _ _ hpos, fun i hi => rateio_combo_quota _ _ hpos i hi⟩
  · intro hneg
    exact rateio_combo_zero _ _ hneg

/-- C2, witness: a two-component combo worth R$ 100.01 splits as
`["50,01", "50,00"]` (wait: rounding of 100.01/2 = 50.005 → 50.01, last
gets 50.00), summing exactly; evaluated through the theorem at a concrete
catalog. -/
theorem desmembrar_combo_soma_exata_witness :
    ∃ linhas, desmembrar_combo_planilha
        { produto_principal := "Kit Duplo", valor_total := 10001 }
        [("transaction_id", "t1")]
        [("Kit Duplo", { sku := "KIT2", composto_de := ["A1", "B2"] }),
         ("Livro A", { sku := "A1" }), ("Livro B", { sku := "B2" })]
        = .ok linhas ∧
      linhas.length = (componentes_combo
        { produto_principal := "Kit Duplo", valor_total := 10001 }
        [("Kit Duplo", { sku := "KIT2", composto_de := ["A1", "B2"] }),
         ("Livro A", { sku := "A1" }), ("Livro B", { sku := "B2" })]).length ∧
      linhas.map (fun r => aget r "Valor Unitário")
        = (rateio_combo 10001 (componentes_combo
            { produto_principal := "Kit Duplo", valor_total := 10001 }
            [("Kit Duplo", { sku := "KIT2", composto_de := ["A1", "B2"] }),
             ("Livro A", { sku := "A1" }), ("Livro B", { sku := "B2" })]).length).map
            (fun v => some (fmt_moeda v)) ∧
      (0 < (10001 : Int) →
        (rateio_combo 10001 (componentes_combo
            { produto_principal := "Kit Duplo", valor_total := 10001 }
            [("Kit Duplo", { sku := "KIT2", composto_de := ["A1", "B2"] }),
             ("Livro A", { sku := "A1" }), ("Livro B", { sku := "B2" })]).length).sum
          = 10001 ∧
        ∀ i : Nat, i < (componentes_combo
            { produto_principal := "Kit Duplo", valor_total := 10001 }
            [("Kit Duplo", { sku := "KIT2", composto_de := ["A1", "B2"] }),
             ("Livro A", { sku := "A1" }), ("Livro B", { sku := "B2" })]).length - 1 →
          (rateio_combo 10001 (componentes_combo
            { produto_principal := "Kit Duplo", valor_total := 10001 }
            [("Kit Duplo", { sku := "KIT2", composto_de := ["A1", "B2"] }),
             ("Livro A", { sku := "A1" }), ("Livro B", { sku := "B2" })]).length).getD i 0
            = round_half_up_cents 10001 (componentes_combo
                { produto_principal := "Kit Duplo", valor_total := 10001 }
                [("Kit Duplo", { sku := "KIT2", composto_de := ["A1", "B2"] }),
                 ("Livro A", { sku := "A1" }), ("Livro B", { sku := "B2" })]).length) ∧
      ((10001 : Int) ≤ 0 →
        rateio_combo 10001 (componentes_combo
            { produto_principal := "Kit Duplo", valor_total := 10001 }
            [("Kit Duplo", { sku := "KIT2", composto_de := ["A1", "B2"] }),
             ("Livro A", { sku := "A1" }), ("Livro B", { sku := "B2" })]).length
          = List.replicate (componentes_combo
            { produto_principal := "Kit Duplo", valor_total := 10001 }
            [("Kit Duplo", { sku := "KIT2", composto_de := ["A1", "B2"] }),
             ("Livro A", { sku := "A1" }), ("Livro B", { sku := "B2" })]).length 0) :=
  desmembrar_combo_soma_exata
    { produto_principal := "Kit Duplo", valor_total := 10001 }
    [("transaction_id", "t1")]
    [("Kit Duplo", { sku := "KIT2", composto_de := ["A1", "B2"] }),
     ("Livro A", { sku := "A1" }), ("Livro B", { sku := "B2" })]
    (by decide) (by decide) (by decide)

/-! ### Subscription-group line emission of `montar_planilha_vendas_guru`
(assinaturas mode, lines 536-649 of `bling_planilha_guru.py`).  The base
line `linha` arrives already carrying the updates of lines 552-576; this
models the dedup assignment and the gift/embedded expansion. -/

/-- A gift line (`lb` in the source): base line updated with the gift
product, SKU, zero values, availability and subscription id, then the
dedup key `tid:SKU_UPPER` (falling back to `tid` when the SKU is empty). -/
def linha_brinde (skus_info : SKUsInfo) (linha1 : Row) (tid brinde_nome sub_id : String) :
    Row :=
  let sku_b := ((aget skus_info brinde_nome).map (·.sku)).getD ""
  let lb := aset (aset (aset (aset (aset (aset linha1
    "Produto" brinde_nome)
    "SKU" sku_b)
    "Valor Unitário" "0,00")
    "Valor Total" "0,00")
    "indisponivel" (if produto_indisponivel brinde_nome (some sku_b) skus_info then "S" else ""))
    "subscription_id" sub_id
  if tid ≠ "" ∧ sku_b ≠ "" then
    aset lb "dedup_id" (tid ++ ":" ++ maiuscula (trim_txt sku_b))
  else if tid ≠ "" then aset lb "dedup_id" tid
  else lb

/-- The embedded-product line (`le` in the source); same dedup convention
as a gift line. -/
def linha_embutido (skus_info : SKUsInfo) (linha1 : Row) (tid nome_emb sub_id : String) :
    Row :=
  let sku_emb := ((aget skus_info nome_emb).map (·.sku)).getD ""
  let le := aset (aset (aset (aset (aset (aset linha1
    "Produto" nome_emb)
    "SKU" sku_emb)
    "Valor Unitário" "0,00")
    "Valor Total" "0,00")
    "indisponivel" (if produto_indisponivel nome_emb (some sku_emb) skus_info then "S" else ""))
    "subscription_id" sub_id
  if tid ≠ "" ∧ sku_emb ≠ "" then
    aset le "dedup_id" (tid ++ ":" ++ maiuscula (trim_txt sku_emb))
  else if tid ≠ "" then aset le "dedup_id" tid
  else le

/-- The lines emitted for one subscription group: the principal line (dedup
key = trimmed transaction id, when non-blank), one zero-valued line per
rule gift (window permitting), and the embedded-product line when the offer
resolves one inside both the timestamp interval and the period window. -/
def linhas_grupo_assinatura (skus_info : SKUsInfo) (linha : Row)
    (brindes_extras : List Row) (janela : Bool) (nome_embutido_oferta : String)
    (embutido_em_ts : Bool) (subscription_id : String) : List Row :=
  let tid := trim_txt ((aget linha "transaction_id").getD "")
  let linha1 := if tid ≠ "" then aset linha "dedup_id" tid else linha
  let brindes := if janela then brindes_extras else []
  let nomes_brindes := (brindes.map (fun br => trim_txt ((aget br "nome").getD ""))).filter
    (· ≠ "")
  let gift_rows := nomes_brindes.map (fun nome =>
    linha_brinde skus_info linha1 tid nome subscription_id)
  let emb_rows := if nome_embutido_oferta ≠ "" ∧ embutido_em_ts ∧ janela then
      [linha_embutido skus_info linha1 tid nome_embutido_oferta subscription_id]
    else []
  linha1 :: (gift_rows ++ emb_rows)

/-! ### Claim C3 -/

/-- Auxiliary: a string append starting from a non-empty string is
non-empty. -/
theorem txt_append_ne_vazio (s t : String) (h : s ≠ "") : s ++ t ≠ "" := by
  intro hc
  apply h
  have hd := congrArg String.data hc
  rw [String.data_append] at hd
  have h2 : s.data = [] := (List.append_eq_nil.mp hd).1
  exact String.ext h2

/-- C3, counterexample: the claim as stated is false.  For a transaction
`t1` with one matching gift whose product has no catalog SKU, the emitted
derived gift line carries `dedup_id = "t1"` (the fallback of lines 608-609
of `bling_planilha_guru.py`), not `"t1:" ++ SKU_UPPER = "t1:"`. -/
theorem linhas_grupo_brinde_sem_sku_dedup :
    aget ((linhas_grupo_assinatura [] [("transaction_id", "t1"), ("dedup_id", "")]
        [[("nome", "Brinde X")]] true "" false "s1").getD 1 []) "dedup_id"
      = some "t1" ∧
    ("t1" : String) ≠ "t1:" := by
  decide

/-- C3 (amended): provided the group's transaction id trims to a non-blank
`tid`, the base line's dedup key equals `tid`; every derived gift or
embedded line whose catalog SKU is non-empty has key `tid ++ ":" ++
SKU_UPPER`; a derived line whose SKU resolves empty falls back to key
`tid`; all emitted lines carry a non-empty dedup key; and combo component
lines (plain-product flow) always carry `tid:SKU_UPPER`. -/
theorem linhas_grupo_assinatura_dedup (skus_info : SKUsInfo) (linha : Row)
    (brindes_extras : List Row) (janela : Bool) (nome_embutido_oferta : String)
    (embutido_em_ts : Bool) (sub_id : String)
    (htid : trim_txt ((aget linha "transaction_id").getD "") ≠ "") :
    (aget ((linhas_grupo_assinatura skus_info linha brindes_extras janela
        nome_embutido_oferta embutido_em_ts sub_id).headI) "dedup_id"
      = some (trim_txt ((aget linha "transaction_id").getD ""))) ∧
    (∀ nome : String,
      aget (linha_brinde skus_info
          (aset linha "dedup_id" (trim_txt ((aget linha "transaction_id").getD "")))
          (trim_txt ((aget linha "transaction_id").getD "")) nome sub_id) "dedup_id"
        = some (if ((aget skus_info nome).map (·.sku)).getD "" ≠ "" then
            trim_txt ((aget linha "transaction_id").getD "") ++ ":" ++
              maiuscula (trim_txt (((aget skus_info nome).map (·.sku)).getD ""))
          else trim_txt ((aget linha "transaction_id").getD ""))) ∧
    (∀ nome : String,
      aget (linha_embutido skus_info
          (aset linha "dedup_id" (trim_txt ((aget linha "transaction_id").getD "")))
          (trim_txt ((aget linha "transaction_id").getD "")) nome sub_id) "dedup_id"
        = some (if ((aget skus_info nome).map (·.sku)).getD "" ≠ "" then
            trim_txt ((aget linha "transaction_id").getD "") ++ ":" ++
              maiuscula (trim_txt (((aget skus_info nome).map (·.sku)).getD ""))
          else trim_txt ((aget linha "transaction_id").getD ""))) ∧
    (∀ r ∈ linhas_grupo_assinatura skus_info linha brindes_extras janela
        nome_embutido_oferta embutido_em_ts sub_id,
      ∃ d, aget r "dedup_id" = some d ∧ d ≠ "") ∧
    (∀ (valores : ValoresCombo) (lb : Row),
      trim_txt ((aget lb "transaction_id").getD "") ≠ "" →
      componentes_combo valores skus_info ≠ [] →
      (∀ it ∈ componentes_combo valores skus_info, maiuscula (trim_txt it.2) ≠ "") →
      ∃ ls, desmembrar_combo_planilha valores lb skus_info = .ok ls ∧
        ls.map (fun r => aget r "dedup_id")
          = (componentes_combo valores skus_info).map (fun it =>
              some (trim_txt ((aget lb "transaction_id").getD "") ++ ":" ++
                maiuscula (trim_txt it.2)))) := by
  refine ⟨?_, ?_, ?_, ?_, ?_⟩
  · rw [linhas_grupo_assinatura]
    simp only [if_pos htid, List.headI]
    exact aget_aset_self _ _ _
  · intro nome
    rw [linha_brinde]
    by_cases hsku : ((aget skus_info nome).map (·.sku)).getD "" ≠ ""
    · simp only [if_pos hsku]
      rw [if_pos (by simp [htid, hsku])]
      exact aget_aset_self _ _ _
    · simp only [if_neg hsku]
      rw [if_neg (by simp at hsku; simp [hsku]), if_pos htid]
      exact aget_aset_self _ _ _
  · intro nome
    rw [linha_embutido]
    by_cases hsku : ((aget skus_info nome).map (·.sku)).getD "" ≠ ""
    · simp only [if_pos hsku]
      rw [if_pos (by simp [htid, hsku])]
      exact aget_aset_self _ _ _
    · simp only [if_neg hsku]
      rw [if_neg (by simp at hsku; simp [hsku]), if_pos htid]
      exact aget_aset_self _ _ _
  · intro r hr
    rw [linhas_grupo_assinatura] at hr
    simp only [if_pos htid, List.mem_cons, List.mem_append] at hr
    rcases hr with hr | hr | hr
    · exact ⟨_, by rw [hr]; exact aget_aset_self _ _ _, htid⟩
    · rw [List.mem_map] at hr
      obtain ⟨nome, _, heq⟩ := hr
      rw [← heq, linha_brinde]
      by_cases hsku : ((aget skus_info nome).map (·.sku)).getD "" ≠ ""
      · refine ⟨_, by rw [if_pos (by simp [htid, hsku])]; exact aget_aset_self _ _ _, ?_⟩
        exact txt_append_ne_vazio _ _ (txt_append_ne_vazio _ _ htid)
      · refine ⟨_, ?_, htid⟩
        rw [if_neg (by simp at hsku; simp [hsku]), if_pos htid]
        exact aget_aset_self _ _ _
    · by_cases hcond : nome_embutido_oferta ≠ "" ∧ embutido_em_ts ∧ janela
      · rw [if_pos hcond, List.mem_singleton] at hr
        rw [hr, linha_embutido]
        by_cases hsku : ((aget skus_info nome_embutido_oferta).map (·.sku)).getD "" ≠ ""
        · refine ⟨_, by rw [if_pos (by simp [htid, hsku])]; exact aget_aset_self _ _ _, ?_⟩
          exact txt_append_ne_vazio _ _ (txt_append_ne_vazio _ _ htid)
        · refine ⟨_, ?_, htid⟩
          rw [if_neg (by simp at hsku; simp [hsku]), if_pos htid]
          exact aget_aset_self _ _ _
      · rw [if_neg hcond] at hr
        simp at hr
  · intro valores lb htid2 hne hsku
    have hn1 : 1 ≤ (componentes_combo valores skus_info).length := by
      cases hc : componentes_combo valores skus_info with
      | nil => exact absurd hc hne
      | cons a resto => simp [hc]
    have hzlen : (componentes_combo valores skus_info).length =
        (rateio_combo valores.valor_total (componentes_combo valores skus_info).length).length :=
      (rateio_combo_length _ _ hn1).symm
    obtain ⟨ls, hls, _, _, hmap2⟩ := monta_linhas_combo_ok
      (trim_txt ((aget lb "transaction_id").getD ""))
      (trim_txt valores.produto_principal) lb skus_info
      ((componentes_combo valores skus_info).zip
        (rateio_combo valores.valor_total (componentes_combo valores skus_info).length))
      (by intro it hit
          exact hsku it.1 (List.of_mem_zip hit).1)
    refine ⟨ls, ?_, ?_⟩
    · rw [desmembrar_combo_planilha, if_neg htid2, if_neg (by omega)]
      exact hls
    · rw [hmap2]
      exact map_zip_fst (fun nomesku =>
        some (trim_txt ((aget lb "transaction_id").getD "") ++ ":" ++
          maiuscula (trim_txt nomesku.2))) _ _ hzlen

/-- C3, witness: the amended dedup theorem applied to a concrete group
(transaction `t1`, one gift with catalog SKU `BX1`). -/
theorem linhas_grupo_assinatura_dedup_witness :
    (aget ((linhas_grupo_assinatura [("Brinde X", { sku := "BX1" })]
        [("transaction_id", "t1")] [[("nome", "Brinde X")]] true "" false "s1").headI)
        "dedup_id"
      = some (trim_txt ((aget [("transaction_id", "t1")] "transaction_id").getD ""))) ∧
    (∀ nome : String,
      aget (linha_brinde [("Brinde X", { sku := "BX1" })]
          (aset [("transaction_id", "t1")] "dedup_id"
            (trim_txt ((aget [("transaction_id", "t1")] "transaction_id").getD "")))
          (trim_txt ((aget [("transaction_id", "t1")] "transaction_id").getD "")) nome "s1")
          "dedup_id"
        = some (if ((aget ([("Brinde X", { sku := "BX1" })] : SKUsInfo) nome).map
            (·.sku)).getD "" ≠ "" then
            trim_txt ((aget [("transaction_id", "t1")] "transaction_id").getD "") ++ ":" ++
              maiuscula (trim_txt (((aget ([("Brinde X", { sku := "BX1" })] : SKUsInfo)
                nome).map (·.sku)).getD ""))
          else trim_txt ((aget [("transaction_id", "t1")] "transaction_id").getD ""))) ∧
    (∀ nome : String,
      aget (linha_embutido [("Brinde X", { sku := "BX1" })]
          (aset [("transaction_id", "t1")] "dedup_id"
            (trim_txt ((aget [("transaction_id", "t1")] "transaction_id").getD "")))
          (trim_txt ((aget [("transaction_id", "t1")] "transaction_id").getD "")) nome "s1")
          "dedup_id"
        = some (if ((aget ([("Brinde X", { sku := "BX1" })] : SKUsInfo) nome).map
            (·.sku)).getD "" ≠ "" then
            trim_txt ((aget [("transaction_id", "t1")] "transaction_id").getD "") ++ ":" ++
              maiuscula (trim_txt (((aget ([("Brinde X", { sku := "BX1" })] : SKUsInfo)
                nome).map (·.sku)).getD ""))
          else trim_txt ((aget [("transaction_id", "t1")] "transaction_id").getD ""))) ∧
    (∀ r ∈ linhas_grupo_assinatura [("Brinde X", { sku := "BX1" })]
        [("transaction_id", "t1")] [[("nome", "Brinde X")]] true "" false "s1",
      ∃ d, aget r "dedup_id" = some d ∧ d ≠ "") ∧
    (∀ (valores : ValoresCombo) (lb : Row),
      trim_txt ((aget lb "transaction_id").getD "") ≠ "" →
      componentes_combo valores [("Brinde X", { sku := "BX1" })] ≠ [] →
      (∀ it ∈ componentes_combo valores [("Brinde X", { sku := "BX1" })],
        maiuscula (trim_txt it.2) ≠ "") →
      ∃ ls, desmembrar_combo_planilha valores lb [("Brinde X", { sku := "BX1" })] = .ok ls ∧
        ls.map (fun r => aget r "dedup_id")
          = (componentes_combo valores [("Brinde X", { sku := "BX1" })]).map (fun it =>
              some (trim_txt ((aget lb "transaction_id").getD "") ++ ":" ++
                maiuscula (trim_txt it.2)))) :=
  linhas_grupo_assinatura_dedup [("Brinde X", { sku := "BX1" })] [("transaction_id", "t1")]
    [[("nome", "Brinde X")]] true "" false "s1" (by decide)

/-! ### `guru_client.py` — paginated fetch with retries -/

/-- The two flow-control exceptions of `guru_client.py`. -/
inductive GuruErr where
  /-- `TransientGuruError`: first page of the whole fetch failed. -/
  | transiente : GuruErr
deriving DecidableEq

/-- One page of the upstream `GET /transactions` response:
`{data: [...], next_cursor: str|null}`. -/
structure Pagina where
  data : List Row := []
  next_cursor : Option String := none
deriving DecidableEq

/-- Outcome of one HTTP attempt for one page, as seen by
`_fetch_page_with_retry` (success, or any exception). -/
abbrev TentativaPagina : Type := Except Unit Pagina

/-- The retry loop of `_fetch_page_with_retry`: try attempts `i`,
`i+1`, ... until one succeeds; when the allowed retries are exhausted,
raise `TransientPageError` (the `.error` value). -/
def fetch_page_go (attempts : Nat → TentativaPagina) : Nat → Nat → TentativaPagina
  | i, 0 => attempts i
  | i, rem + 1 =>
    match attempts i with
    | .ok p => .ok p
    | .error _ => fetch_page_go attempts (i + 1) rem

/-- `_fetch_page_with_retry(...)` with `max_page_retries` extra attempts. -/
def fetch_page_with_retry (attempts : Nat → TentativaPagina) (max_page_retries : Nat) :
    TentativaPagina :=
  fetch_page_go attempts 0 max_page_retries

/-- Python truthiness of the pagination cursor (`if not cursor: break`). -/
def cursor_ok (c : Option String) : Bool :=
  match c with
  | some s => s ≠ ""
  | none => false

/-- Tagging of a fetched page (`t["tipo_assinatura"] = tipo_assinatura`). -/
def marca_tipo (tipo : Option String) (pagina : List Row) : List Row :=
  match tipo with
  | some ta => pagina.map (fun t => aset t "tipo_assinatura" ta)
  | none => pagina

/-- The page loop of `coletar_vendas`: `fetches` scripts the outcome of
`_fetch_page_with_retry` for each successive page request; the loop
accumulates tagged transactions, raises `TransientGuruError` only when the
very first page fails with nothing collected, stops with partial results on
a later failure, and stops successfully when the cursor runs out. -/
def coletar_vendas_go (tipo : Option String) :
    List TentativaPagina → List Row → Nat → Nat → Except GuruErr (List Row)
  | [], acc, _, _ => .ok acc
  | .error _ :: _, acc, pagina_count, total_transacoes =>
    if pagina_count = 0 ∧ total_transacoes = 0 then .error .transiente else .ok acc
  | .ok pagina :: resto, acc, pagina_count, total_transacoes =>
    let acc2 := acc ++ marca_tipo tipo pagina.data
    if cursor_ok pagina.next_cursor then
      coletar_vendas_go tipo resto acc2 (pagina_count + 1)
        (total_transacoes + pagina.data.length)
    else .ok acc2

/-- `coletar_vendas(product_id, inicio, fim, tipo_assinatura=...)` over a
scripted sequence of page outcomes. -/
def coletar_vendas (fetches : List TentativaPagina) (tipo : Option String) :
    Except GuruErr (List Row) :=
  coletar_vendas_go tipo fetches [] 0 0

/-- The attempt loop of `coletar_vendas_com_retry`: attempt index and
remaining range of `range(tentativas)`. -/
def coletar_retry_go (script : Nat → List TentativaPagina) (tipo : Option String) :
    Nat → Nat → List Row
  | _, 0 => []
  | i, rem + 1 =>
    match coletar_vendas (script i) tipo with
    | .ok r => r
    | .error _ => if rem = 0 then [] else coletar_retry_go script tipo (i + 1) rem

/-- `coletar_vendas_com_retry(*args, tentativas=3)`: retry the whole fetch
on `TransientGuruError`, returning `[]` when every attempt failed. -/
def coletar_vendas_com_retry (script : Nat → List TentativaPagina)
    (tipo : Option String) (tentativas : Nat := 3) : List Row :=
  coletar_retry_go script tipo 0 tentativas

/-! ### Claim C4 -/

theorem coletar_vendas_go_paginas (tipo : Option String) :
    ∀ (paginas : List Pagina) (resto : List TentativaPagina) (acc : List Row)
      (pc tt : Nat),
    (∀ p ∈ paginas, cursor_ok p.next_cursor) →
    coletar_vendas_go tipo (paginas.map .ok ++ .error () :: resto) acc pc tt
      = if pc + paginas.length = 0 ∧ tt + (paginas.map (·.data.length)).sum = 0 then
          .error .transiente
        else .ok (acc ++ (paginas.map (fun p => marca_tipo tipo p.data)).flatten) := by
  intro paginas
  induction paginas with
  | nil =>
    intro resto acc pc tt _
    simp [coletar_vendas_go]
  | cons p resto_p ih =>
    intro resto acc pc tt hc
    rw [List.map_cons, List.cons_append, coletar_vendas_go]
    rw [if_pos (hc p (List.mem_cons_self _ _))]
    rw [ih resto _ _ _ (fun q hq => hc q (List.mem_cons_of_mem _ hq))]
    have hpc : ¬(pc + 1 + resto_p.length = 0 ∧
        tt + p.data.length + (resto_p.map (·.data.length)).sum = 0) := by
      intro hcon
      omega
    rw [if_neg hpc, if_neg (by intro hcon; simp at hcon)]
    simp [List.append_assoc]

/-- C4: in `coletar_vendas`, (a) if the first page request exhausts its
retries (`_fetch_page_with_retry` raises after every attempt failed), the
whole fetch raises `TransientGuruError`; (b) if a later page fails after at
least one page was fetched, the loop stops and returns every transaction
already collected, in order; (c) `_fetch_page_with_retry` raises exactly
when all of its `max_page_retries + 1` attempts fail. -/
theorem coletar_vendas_primeira_pagina_vs_parcial (tipo : Option String)
    (resto : List TentativaPagina) (paginas : List Pagina)
    (hpag : ∀ p ∈ paginas, cursor_ok p.next_cursor) (hne : paginas ≠ []) :
    coletar_vendas (.error () :: resto) tipo = .error .transiente ∧
    coletar_vendas (paginas.map .ok ++ .error () :: resto) tipo
      = .ok ((paginas.map (fun p => marca_tipo tipo p.data)).flatten) ∧
    (∀ (attempts : Nat → TentativaPagina) (max_page_retries : Nat),
      (∀ i, i ≤ max_page_retries → attempts i = .error ()) →
      fetch_page_with_retry attempts max_page_retries = .error ()) := by
  refine ⟨rfl, ?_, ?_⟩
  · rw [coletar_vendas, coletar_vendas_go_paginas tipo paginas resto [] 0 0 hpag]
    rw [if_neg (by
      intro hcon
      cases hp : paginas with
      | nil => exact hne hp
      | cons a b => rw [hp] at hcon; simp at hcon)]
    simp
  · intro attempts max_page_retries hall
    rw [fetch_page_with_retry]
    have : ∀ (rem i : Nat), (∀ j, j ≤ i + rem → attempts j = .error ()) →
        fetch_page_go attempts i rem = .error () := by
      intro rem
      induction rem with
      | zero =>
        intro i h
        rw [fetch_page_go]
        exact h i (by omega)
      | succ m ih =>
        intro i h
        rw [fetch_page_go, h i (by omega)]
        exact ih (i + 1) (fun j hj => h j (by omega))
    exact this max_page_retries 0 (fun j hj => hall j (by omega))

/-- C4, witness: one concrete successful page followed by a failure returns
the partial page, and an all-failing attempt script raises. -/
theorem coletar_vendas_primeira_pagina_vs_parcial_witness :
    coletar_vendas (.error () :: []) (some "anuais") = .error .transiente ∧
    coletar_vendas ([({ data := [[("id", "t1")]], next_cursor := some "c2" } : Pagina)].map .ok
        ++ .error () :: []) (some "anuais")
      = .ok (([({ data := [[("id", "t1")]], next_cursor := some "c2" } : Pagina)].map
          (fun p => marca_tipo (some "anuais") p.data)).flatten) ∧
    (∀ (attempts : Nat → TentativaPagina) (max_page_retries : Nat),
      (∀ i, i ≤ max_page_retries → attempts i = .error ()) →
      fetch_page_with_retry attempts max_page_retries = .error ()) :=
  coletar_vendas_primeira_pagina_vs_parcial (some "anuais") []
    [{ data := [[("id", "t1")]], next_cursor := some "c2" }]
    (by decide) (by decide)

/-! ### Claim C5 -/

/-- C5: when every attempt of the underlying fetch raises the transient
collection error, `coletar_vendas_com_retry` returns the empty list and
never propagates an exception. -/
theorem coletar_vendas_com_retry_sempre_transiente
    (script : Nat → List TentativaPagina) (tipo : Option String) (tentativas : Nat)
    (h : ∀ i, coletar_vendas (script i) tipo = .error .transiente) :
    coletar_vendas_com_retry script tipo tentativas = [] := by
  rw [coletar_vendas_com_retry]
  have : ∀ (rem i : Nat), coletar_retry_go script tipo i rem = [] := by
    intro rem
    induction rem with
    | zero => intro i; rfl
    | succ m ih =>
      intro i
      rw [coletar_retry_go, h i]
      by_cases hm : m = 0
      · rw [if_pos hm]
      · rw [if_neg hm]
        exact ih (i + 1)
  exact this tentativas 0

/-- C5, witness: a script whose every attempt fails on the first page makes
the wrapper return `[]`. -/
theorem coletar_vendas_com_retry_sempre_transiente_witness :
    coletar_vendas_com_retry (fun _ => [.error ()]) (some "anuais") 3 = [] :=
  coletar_vendas_com_retry_sempre_transiente (fun _ => [.error ()]) (some "anuais") 3
    (fun _ => rfl)

/-! ### `dividir_periodos_coleta_api_guru` — calendar model

Inputs are dates (the function is called with `YYYY-MM-DD` values; `_as_dt`
turns them into midnight datetimes, so every comparison in the loop is
date-granular).  A datetime at midnight is a `Date`; the lexicographic
order of datetimes is the order of `Date.key`.  The `min` of the quarter
boundary (taken by the source at 23:59:59) and the midnight end date picks
the quarter boundary exactly when its date is strictly earlier. -/

/-- A calendar date. -/
structure Date where
  y : Nat
  m : Nat
  d : Nat
deriving DecidableEq, Inhabited

/-- Order-embedding key of a date (valid months/days stay below the radix). -/
def Date.key (a : Date) : Nat := a.y * 10000 + a.m * 100 + a.d

/-- Gregorian leap year (what `calendar.monthrange` implements). -/
def eh_bissexto (y : Nat) : Bool := y % 4 = 0 && (y % 100 ≠ 0 || y % 400 = 0)

/-- `calendar.monthrange(y, m)[1]`. -/
def dias_no_mes (y m : Nat) : Nat :=
  if m = 2 then (if eh_bissexto y then 29 else 28)
  else if m = 4 ∨ m = 6 ∨ m = 9 ∨ m = 11 then 30 else 31

/-- A well-formed calendar date. -/
def Date.Valid (a : Date) : Prop :=
  1 ≤ a.m ∧ a.m ≤ 12 ∧ 1 ≤ a.d ∧ a.d ≤ dias_no_mes a.y a.m

instance (a : Date) : Decidable a.Valid := by
  unfold Date.Valid
  infer_instance

/-- The day after a date. -/
def dia_seguinte (a : Date) : Date :=
  if a.d < dias_no_mes a.y a.m then ⟨a.y, a.m, a.d + 1⟩
  else if a.m < 12 then ⟨a.y, a.m + 1, 1⟩
  else ⟨a.y + 1, 1, 1⟩

/-- The closing month of the quarter block containing month `m`
(`fim_mes = 4 if mes <= 4 else (8 if mes <= 8 else 12)`). -/
def mes_fim_quadrimestre (m : Nat) : Nat := if m ≤ 4 then 4 else if m ≤ 8 then 8 else 12

/-- The quarter-block boundary of the block containing `a`
(Apr 30 / Aug 31 / Dec 31 of `a`'s year). -/
def fim_quadrimestre (a : Date) : Date :=
  ⟨a.y, mes_fim_quadrimestre a.m, dias_no_mes a.y (mes_fim_quadrimestre a.m)⟩

/-- The first day of the month after the quarter block containing `a`
(`proximo_mes`/`proximo_ano` of the source). -/
def inicio_prox_quadrimestre (a : Date) : Date :=
  if mes_fim_quadrimestre a.m = 12 then ⟨a.y + 1, 1, 1⟩
  else ⟨a.y, mes_fim_quadrimestre a.m + 1, 1⟩

/-- `min(fim_bloco, end)` of the source: the quarter boundary is taken at
23:59:59 and `end` at midnight, so the boundary wins only when its date is
strictly earlier. -/
def min_data (q e : Date) : Date := if q.key < e.key then q else e

/-- The `while atual <= end` loop of `dividir_periodos_coleta_api_guru`,
with fuel (the loop always terminates: `atual` advances one quarter per
iteration). -/
def dividir_go (fim : Date) : Nat → Date → List (Date × Date)
  | 0, _ => []
  | fuel + 1, atual =>
    if atual.key ≤ fim.key then
      (atual, min_data (fim_quadrimestre atual) fim) ::
        dividir_go fim fuel (inicio_prox_quadrimestre atual)
    else []

/-- Fuel budget: three quarter blocks per calendar year plus slack. -/
def combustivel (ini fim : Date) : Nat := 3 * (fim.y + 1 - ini.y) + 3

/-- `dividir_periodos_coleta_api_guru(data_inicio, data_fim)` on dates. -/
def dividir_periodos_coleta_api_guru (ini fim : Date) : List (Date × Date) :=
  dividir_go fim (combustivel ini fim) ini

/-- Exact characterization of the loop's output: each block starts at the
running date, closes at `min(quarter boundary, end)`, and the loop stops
exactly when the running date passes `end`. -/
def BlocosSpec (fim : Date) : Date → List (Date × Date) → Prop
  | atual, [] => fim.key < atual.key
  | atual, b :: resto => atual.key ≤ fim.key ∧ b.1 = atual ∧
      b.2 = min_data (fim_quadrimestre atual) fim ∧
      BlocosSpec fim (inicio_prox_quadrimestre atual) resto

/-! ### Calendar arithmetic lemmas -/

theorem dias_no_mes_le_31 (y m : Nat) : dias_no_mes y m ≤ 31 := by
  unfold dias_no_mes
  split
  · split <;> omega
  · split <;> omega

theorem dias_no_mes_abril (y : Nat) : dias_no_mes y 4 = 30 := by
  norm_num [dias_no_mes]

theorem dias_no_mes_agosto (y : Nat) : dias_no_mes y 8 = 31 := by
  norm_num [dias_no_mes]

theorem dias_no_mes_dezembro (y : Nat) : dias_no_mes y 12 = 31 := by
  norm_num [dias_no_mes]

theorem key_mk (y m d : Nat) : (⟨y, m, d⟩ : Date).key = y * 10000 + m * 100 + d := rfl

theorem dia_le_30_de_abril (a : Date) (hv : a.Valid) (h4 : a.m = 4) : a.d ≤ 30 := by
  have := hv.2.2.2
  rw [h4, dias_no_mes_abril] at this
  exact this

theorem mes_fim_m4 (m : Nat) (h : m ≤ 4) : mes_fim_quadrimestre m = 4 := by
  unfold mes_fim_quadrimestre
  rw [if_pos h]

theorem mes_fim_m8 (m : Nat) (h4 : ¬m ≤ 4) (h8 : m ≤ 8) : mes_fim_quadrimestre m = 8 := by
  unfold mes_fim_quadrimestre
  rw [if_neg h4, if_pos h8]

theorem mes_fim_m12 (m : Nat) (h4 : ¬m ≤ 4) (h8 : ¬m ≤ 8) : mes_fim_quadrimestre m = 12 := by
  unfold mes_fim_quadrimestre
  rw [if_neg h4, if_neg h8]

theorem fim_quad_m4 (a : Date) (h : a.m ≤ 4) : fim_quadrimestre a = ⟨a.y, 4, 30⟩ := by
  unfold fim_quadrimestre
  rw [mes_fim_m4 _ h, dias_no_mes_abril]

theorem fim_quad_m8 (a : Date) (h4 : ¬a.m ≤ 4) (h8 : a.m ≤ 8) :
    fim_quadrimestre a = ⟨a.y, 8, 31⟩ := by
  unfold fim_quadrimestre
  rw [mes_fim_m8 _ h4 h8, dias_no_mes_agosto]

theorem fim_quad_m12 (a : Date) (h4 : ¬a.m ≤ 4) (h8 : ¬a.m ≤ 8) :
    fim_quadrimestre a = ⟨a.y, 12, 31⟩ := by
  unfold fim_quadrimestre
  rw [mes_fim_m12 _ h4 h8, dias_no_mes_dezembro]

theorem prox_m4 (a : Date) (h : a.m ≤ 4) : inicio_prox_quadrimestre a = ⟨a.y, 5, 1⟩ := by
  unfold inicio_prox_quadrimestre
  rw [mes_fim_m4 _ h]
  norm_num

theorem prox_m8 (a : Date) (h4 : ¬a.m ≤ 4) (h8 : a.m ≤ 8) :
    inicio_prox_quadrimestre a = ⟨a.y, 9, 1⟩ := by
  unfold inicio_prox_quadrimestre
  rw [mes_fim_m8 _ h4 h8]
  norm_num

theorem prox_m12 (a : Date) (h4 : ¬a.m ≤ 4) (h8 : ¬a.m ≤ 8) :
    inicio_prox_quadrimestre a = ⟨a.y + 1, 1, 1⟩ := by
  unfold inicio_prox_quadrimestre
  rw [mes_fim_m12 _ h4 h8]
  norm_num

theorem valid_mk_simples (y m : Nat) (h1 : 1 ≤ m) (h2 : m ≤ 12)
    (h3 : 1 ≤ dias_no_mes y m) : (⟨y, m, 1⟩ : Date).Valid := ⟨h1, h2, le_refl 1, h3⟩

theorem dias_no_mes_pos (y m : Nat) : 1 ≤ dias_no_mes y m := by
  unfold dias_no_mes
  split
  · split <;> omega
  · split <;> omega

theorem valid_inicio_prox (a : Date) : (inicio_prox_quadrimestre a).Valid := by
  by_cases h4 : a.m ≤ 4
  · rw [prox_m4 a h4]
    simp only [Date.Valid]
    exact ⟨by omega, by omega, by omega, dias_no_mes_pos _ _⟩
  · by_cases h8 : a.m ≤ 8
    · rw [prox_m8 a h4 h8]
      simp only [Date.Valid]
      exact ⟨by omega, by omega, by omega, dias_no_mes_pos _ _⟩
    · rw [prox_m12 a h4 h8]
      simp only [Date.Valid]
      exact ⟨by omega, by omega, by omega, dias_no_mes_pos _ _⟩

theorem valid_fim_quadrimestre (a : Date) : (fim_quadrimestre a).Valid := by
  by_cases h4 : a.m ≤ 4
  · rw [fim_quad_m4 a h4]
    simp only [Date.Valid, dias_no_mes_abril]
    omega
  · by_cases h8 : a.m ≤ 8
    · rw [fim_quad_m8 a h4 h8]
      simp only [Date.Valid, dias_no_mes_agosto]
      omega
    · rw [fim_quad_m12 a h4 h8]
      simp only [Date.Valid, dias_no_mes_dezembro]
      omega

theorem key_le_fim_quadrimestre (a : Date) (hv : a.Valid) :
    a.key ≤ (fim_quadrimestre a).key := by
  obtain ⟨h1, h2, h3, h4⟩ := hv
  have h31 : a.d ≤ 31 := h4.trans (dias_no_mes_le_31 _ _)
  by_cases hm4 : a.m ≤ 4
  · rw [fim_quad_m4 a hm4]
    have hd4 : a.m = 4 → a.d ≤ 30 := fun hh => dia_le_30_de_abril a ⟨h1, h2, h3, h4⟩ hh
    simp only [Date.key]
    by_cases hmx : a.m = 4
    · have := hd4 hmx
      omega
    · omega
  · by_cases hm8 : a.m ≤ 8
    · rw [fim_quad_m8 a hm4 hm8]
      simp only [Date.key]
      omega
    · rw [fim_quad_m12 a hm4 hm8]
      simp only [Date.key]
      omega

theorem fim_quadrimestre_lt_prox (a : Date) :
    (fim_quadrimestre a).key < (inicio_prox_quadrimestre a).key := by
  by_cases hm4 : a.m ≤ 4
  · rw [fim_quad_m4 a hm4, prox_m4 a hm4]
    simp only [Date.key]
    omega
  · by_cases hm8 : a.m ≤ 8
    · rw [fim_quad_m8 a hm4 hm8, prox_m8 a hm4 hm8]
      simp only [Date.key]
      omega
    · rw [fim_quad_m12 a hm4 hm8, prox_m12 a hm4 hm8]
      simp only [Date.key]
      omega

/-- A valid date strictly past a quarter boundary is at or past the first
day of the next quarter (there is no valid date in between). -/
theorem chave_apos_quadrimestre (s dte : Date) (hd : dte.Valid)
    (h : (fim_quadrimestre s).key < dte.key) :
    (inicio_prox_quadrimestre s).key ≤ dte.key := by
  obtain ⟨h1, h2, h3, h4⟩ := hd
  have h31 : dte.d ≤ 31 := h4.trans (dias_no_mes_le_31 _ _)
  have hd4 : dte.m = 4 → dte.d ≤ 30 := fun hh => dia_le_30_de_abril dte ⟨h1, h2, h3, h4⟩ hh
  by_cases hm4 : s.m ≤ 4
  · rw [fim_quad_m4 s hm4] at h
    rw [prox_m4 s hm4]
    simp only [Date.key] at h ⊢
    by_cases hmx : dte.m = 4
    · have := hd4 hmx
      omega
    · omega
  · by_cases hm8 : s.m ≤ 8
    · rw [fim_quad_m8 s hm4 hm8] at h
      rw [prox_m8 s hm4 hm8]
      simp only [Date.key] at h ⊢
      omega
    · rw [fim_quad_m12 s hm4 hm8] at h
      rw [prox_m12 s hm4 hm8]
      simp only [Date.key] at h ⊢
      omega

/-- The day after a quarter boundary is the first day of the next quarter. -/
theorem dia_seguinte_fim_quadrimestre (a : Date) :
    dia_seguinte (fim_quadrimestre a) = inicio_prox_quadrimestre a := by
  by_cases hm4 : a.m ≤ 4
  · rw [fim_quad_m4 a hm4, prox_m4 a hm4]
    unfold dia_seguinte
    norm_num [dias_no_mes_abril]
  · by_cases hm8 : a.m ≤ 8
    · rw [fim_quad_m8 a hm4 hm8, prox_m8 a hm4 hm8]
      unfold dia_seguinte
      norm_num [dias_no_mes_agosto]
    · rw [fim_quad_m12 a hm4 hm8, prox_m12 a hm4 hm8]
      unfold dia_seguinte
      norm_num [dias_no_mes_dezembro]

/-- Fuel cost of the loop from `a`: decreases by one per iteration. -/
def gasto (fim a : Date) : Nat :=
  3 * (fim.y + 1 - a.y) + (3 - (if a.m ≤ 4 then 0 else if a.m ≤ 8 then 1 else 2))

theorem gasto_mk (fim : Date) (y m d : Nat) :
    gasto fim ⟨y, m, d⟩ = 3 * (fim.y + 1 - y) +
      (3 - (if m ≤ 4 then 0 else if m ≤ 8 then 1 else 2)) := rfl

theorem gasto_pos (fim a : Date) : 1 ≤ gasto fim a := by
  unfold gasto
  by_cases h4 : a.m ≤ 4
  · rw [if_pos h4]
    omega
  · by_cases h8 : a.m ≤ 8
    · rw [if_neg h4, if_pos h8]
      omega
    · rw [if_neg h4, if_neg h8]
      omega

theorem ano_le_de_key_le (a fim : Date) (hva : a.Valid) (hvf : fim.Valid)
    (hle : a.key ≤ fim.key) : a.y ≤ fim.y := by
  obtain ⟨h1, h2, h3, h4⟩ := hva
  obtain ⟨g1, g2, g3, g4⟩ := hvf
  have h31 : a.d ≤ 31 := h4.trans (dias_no_mes_le_31 _ _)
  have g31 : fim.d ≤ 31 := g4.trans (dias_no_mes_le_31 _ _)
  unfold Date.key at hle
  by_contra hc
  omega

theorem gasto_decresce (fim a : Date) (hva : a.Valid) (hvf : fim.Valid)
    (hle : a.key ≤ fim.key) :
    gasto fim (inicio_prox_quadrimestre a) + 1 ≤ gasto fim a := by
  have hy : a.y ≤ fim.y := ano_le_de_key_le a fim hva hvf hle
  by_cases hm4 : a.m ≤ 4
  · rw [prox_m4 a hm4]
    simp only [gasto, if_pos hm4]
    norm_num
  · by_cases hm8 : a.m ≤ 8
    · rw [prox_m8 a hm4 hm8]
      simp only [gasto, if_neg hm4, if_pos hm8]
      norm_num
    · rw [prox_m12 a hm4 hm8]
      simp only [gasto, if_neg hm4, if_neg hm8]
      norm_num
      omega

/-! ### The loop meets its specification -/

theorem min_data_key_le_dir (q e : Date) : (min_data q e).key ≤ e.key := by
  unfold min_data
  split <;> omega

theorem min_data_key_le_esq (q e : Date) : (min_data q e).key ≤ q.key := by
  unfold min_data
  split <;> omega

theorem dividir_go_spec (fim : Date) (hvf : fim.Valid) : ∀ (fuel : Nat) (atual : Date),
    atual.Valid → gasto fim atual ≤ fuel →
    BlocosSpec fim atual (dividir_go fim fuel atual) := by
  intro fuel
  induction fuel with
  | zero =>
    intro atual _ hg
    have := gasto_pos fim atual
    omega
  | succ f ih =>
    intro atual hva hg
    rw [dividir_go]
    by_cases hguard : atual.key ≤ fim.key
    · rw [if_pos hguard]
      exact ⟨hguard, rfl, rfl, ih _ (valid_inicio_prox atual)
        (by have := gasto_decresce fim atual hva hvf hguard; omega)⟩
    · rw [if_neg hguard]
      simp only [BlocosSpec]
      omega

theorem dividir_spec (ini fim : Date) (hvi : ini.Valid) (hvf : fim.Valid) :
    BlocosSpec fim ini (dividir_periodos_coleta_api_guru ini fim) := by
  rw [dividir_periodos_coleta_api_guru]
  apply dividir_go_spec fim hvf _ ini hvi
  unfold combustivel gasto
  split_ifs <;> omega

theorem blocos_cada (fim : Date) : ∀ (bs : List (Date × Date)) (atual : Date),
    atual.Valid → BlocosSpec fim atual bs →
    ∀ b ∈ bs, b.1.Valid ∧ b.1.key ≤ fim.key ∧ b.2 = min_data (fim_quadrimestre b.1) fim := by
  intro bs
  induction bs with
  | nil => intro atual _ _ b hb; simp at hb
  | cons c resto ih =>
    intro atual hva hspec b hb
    obtain ⟨hg, hc1, hc2, hrest⟩ := hspec
    rw [List.mem_cons] at hb
    rcases hb with hb | hb
    · rw [hb, hc1]
      exact ⟨hva, hg, hc2⟩
    · exact ih (inicio_prox_quadrimestre atual) (valid_inicio_prox atual) hrest b hb

theorem blocos_starts_ge (fim : Date) : ∀ (bs : List (Date × Date)) (atual : Date),
    atual.Valid → BlocosSpec fim atual bs → ∀ b ∈ bs, atual.key ≤ b.1.key := by
  intro bs
  induction bs with
  | nil => intro atual _ _ b hb; simp at hb
  | cons c resto ih =>
    intro atual hva hspec b hb
    obtain ⟨hg, hc1, hc2, hrest⟩ := hspec
    rw [List.mem_cons] at hb
    rcases hb with hb | hb
    · rw [hb, hc1]
    · have h1 : atual.key ≤ (inicio_prox_quadrimestre atual).key :=
        le_of_lt (lt_of_le_of_lt (key_le_fim_quadrimestre atual hva)
          (fim_quadrimestre_lt_prox atual))
      exact h1.trans (ih (inicio_prox_quadrimestre atual) (valid_inicio_prox atual) hrest b hb)

theorem blocos_pairwise (fim : Date) : ∀ (bs : List (Date × Date)) (atual : Date),
    atual.Valid → BlocosSpec fim atual bs →
    List.Pairwise (fun b c => b.2.key < c.1.key) bs := by
  intro bs
  induction bs with
  | nil => intro atual _ _; exact List.Pairwise.nil
  | cons c resto ih =>
    intro atual hva hspec
    obtain ⟨hg, hc1, hc2, hrest⟩ := hspec
    refine List.Pairwise.cons ?_ (ih _ (valid_inicio_prox atual) hrest)
    intro b hb
    have h1 : c.2.key < (inicio_prox_quadrimestre atual).key := by
      have := min_data_key_le_esq (fim_quadrimestre atual) fim
      have := fim_quadrimestre_lt_prox atual
      rw [hc2]
      omega
    exact h1.trans_le (blocos_starts_ge fim resto _ (valid_inicio_prox atual) hrest b hb)

theorem blocos_chain (fim : Date) (_hvf : fim.Valid) : ∀ (bs : List (Date × Date)) (atual : Date),
    atual.Valid → BlocosSpec fim atual bs →
    List.Chain' (fun b c => c.1 = dia_seguinte b.2) bs := by
  intro bs
  induction bs with
  | nil => intro atual _ _; exact List.chain'_nil
  | cons c resto ih =>
    intro atual hva hspec
    obtain ⟨hg, hc1, hc2, hrest⟩ := hspec
    cases resto with
    | nil => exact List.chain'_singleton c
    | cons c2 r2 =>
      rw [List.chain'_cons]
      have hrest2 := hrest
      obtain ⟨hg2, hc21, _, _⟩ := hrest2
      constructor
      · have hmin : c.2 = fim_quadrimestre atual := by
          rw [hc2]
          unfold min_data
          by_cases hcond : (fim_quadrimestre atual).key < fim.key
          · rw [if_pos hcond]
          · exfalso
            have := fim_quadrimestre_lt_prox atual
            omega
        rw [hmin, hc21, dia_seguinte_fim_quadrimestre]
      · exact ih (inicio_prox_quadrimestre atual) (valid_inicio_prox atual) hrest

theorem blocos_ultimo (fim : Date) (hvf : fim.Valid) : ∀ (bs : List (Date × Date)) (atual : Date),
    atual.Valid → BlocosSpec fim atual bs → bs ≠ [] →
    ∃ b, bs.getLast? = some b ∧ b.2 = fim := by
  intro bs
  induction bs with
  | nil => intro atual _ _ h; exact absurd rfl h
  | cons c resto ih =>
    intro atual hva hspec _
    obtain ⟨hg, hc1, hc2, hrest⟩ := hspec
    cases resto with
    | nil =>
      refine ⟨c, rfl, ?_⟩
      have hfq : ¬(fim_quadrimestre atual).key < fim.key := by
        intro hcond
        have := chave_apos_quadrimestre atual fim hvf hcond
        simp only [BlocosSpec] at hrest
        omega
      rw [hc2]
      unfold min_data
      rw [if_neg hfq]
    | cons c2 r2 =>
      obtain ⟨b, hb, hbf⟩ := ih (inicio_prox_quadrimestre atual) (valid_inicio_prox atual)
        hrest (by simp)
      exact ⟨b, by rw [List.getLast?_cons_cons]; exact hb, hbf⟩

theorem blocos_cobre (fim : Date) : ∀ (bs : List (Date × Date)) (atual : Date),
    atual.Valid → BlocosSpec fim atual bs →
    ∀ dte : Date, dte.Valid → atual.key ≤ dte.key → dte.key ≤ fim.key →
    ∃ b ∈ bs, b.1.key ≤ dte.key ∧ dte.key ≤ b.2.key := by
  intro bs
  induction bs with
  | nil =>
    intro atual _ hspec dte _ h1 h2
    simp only [BlocosSpec] at hspec
    omega
  | cons c resto ih =>
    intro atual hva hspec dte hvd h1 h2
    obtain ⟨hg, hc1, hc2, hrest⟩ := hspec
    by_cases hin : dte.key ≤ c.2.key
    · exact ⟨c, List.mem_cons_self _ _, by rw [hc1]; exact h1, hin⟩
    · have hc2fq : c.2 = fim_quadrimestre atual ∧ (fim_quadrimestre atual).key < fim.key := by
        rw [hc2]
        unfold min_data
        by_cases hcond : (fim_quadrimestre atual).key < fim.key
        · rw [if_pos hcond]
          exact ⟨rfl, hcond⟩
        · rw [if_neg hcond]
          rw [hc2] at hin
          unfold min_data at hin
          rw [if_neg hcond] at hin
          omega
      have hgap : (inicio_prox_quadrimestre atual).key ≤ dte.key := by
        apply chave_apos_quadrimestre atual dte hvd
        rw [hc2fq.1] at hin
        omega
      obtain ⟨b, hb, hbb⟩ := ih (inicio_prox_quadrimestre atual) (valid_inicio_prox atual)
        hrest dte hvd hgap h2
      exact ⟨b, List.mem_cons_of_mem _ hb, hbb⟩

/-! ### Claim C6 -/

/-- C6: for valid dates `ini ≤ fim`, `dividir_periodos_coleta_api_guru`
returns a non-empty block list that starts at `ini`, ends at `fim`, closes
each block at `min(quarter boundary of its start, fim)` (Apr 30 / Aug 31 /
Dec 31, whichever comes first), is contiguous (each block starts the day
after the previous one ends), pairwise non-overlapping, and covers exactly
the valid dates of `[ini, fim]`. -/
theorem dividir_periodos_cobre_intervalo (ini fim : Date)
    (hvi : ini.Valid) (hvf : fim.Valid) (h : ini.key ≤ fim.key) :
    dividir_periodos_coleta_api_guru ini fim ≠ [] ∧
    (dividir_periodos_coleta_api_guru ini fim).headI.1 = ini ∧
    (∃ b, (dividir_periodos_coleta_api_guru ini fim).getLast? = some b ∧ b.2 = fim) ∧
    (∀ b ∈ dividir_periodos_coleta_api_guru ini fim,
      b.1.key ≤ b.2.key ∧ b.2 = min_data (fim_quadrimestre b.1) fim) ∧
    List.Chain' (fun b c => c.1 = dia_seguinte b.2)
      (dividir_periodos_coleta_api_guru ini fim) ∧
    List.Pairwise (fun b c => b.2.key < c.1.key)
      (dividir_periodos_coleta_api_guru ini fim) ∧
    (∀ dte : Date, dte.Valid →
      ((ini.key ≤ dte.key ∧ dte.key ≤ fim.key) ↔
        ∃ b ∈ dividir_periodos_coleta_api_guru ini fim,
          b.1.key ≤ dte.key ∧ dte.key ≤ b.2.key)) := by
  have hspec := dividir_spec ini fim hvi hvf
  have hne : dividir_periodos_coleta_api_guru ini fim ≠ [] := by
    intro hnil
    rw [hnil] at hspec
    simp only [BlocosSpec] at hspec
    omega
  refine ⟨hne, ?_, ?_, ?_, ?_, ?_, ?_⟩
  · cases hbs : dividir_periodos_coleta_api_guru ini fim with
    | nil => exact absurd hbs hne
    | cons c r =>
      rw [hbs] at hspec
      obtain ⟨_, hc1, _, _⟩ := hspec
      simp only [List.headI]
      exact hc1
  · exact blocos_ultimo fim hvf _ ini hvi hspec hne
  · intro b hb
    obtain ⟨hbv, hble, hbmin⟩ := blocos_cada fim _ ini hvi hspec b hb
    refine ⟨?_, hbmin⟩
    rw [hbmin]
    unfold min_data
    split
    · exact key_le_fim_quadrimestre b.1 hbv
    · exact hble
  · exact blocos_chain fim hvf _ ini hvi hspec
  · exact blocos_pairwise fim _ ini hvi hspec
  · intro dte hvd
    constructor
    · intro hin
      exact blocos_cobre fim _ ini hvi hspec dte hvd hin.1 hin.2
    · intro hex
      obtain ⟨b, hb, hb1, hb2⟩ := hex
      obtain ⟨hbv, hble, hbmin⟩ := blocos_cada fim _ ini hvi hspec b hb
      have hstart := blocos_starts_ge fim _ ini hvi hspec b hb
      have hfim : b.2.key ≤ fim.key := by
        rw [hbmin]
        exact min_data_key_le_dir _ _
      exact ⟨hstart.trans hb1, hb2.trans hfim⟩

/-- C6, witness: Feb 10 2025 → Sep 5 2025 splits into blocks ending
Apr 30, Aug 31 and Sep 5, satisfying every clause of the theorem. -/
theorem dividir_periodos_cobre_intervalo_witness :
    dividir_periodos_coleta_api_guru ⟨2025, 2, 10⟩ ⟨2025, 9, 5⟩ ≠ [] ∧
    (dividir_periodos_coleta_api_guru ⟨2025, 2, 10⟩ ⟨2025, 9, 5⟩).headI.1
      = (⟨2025, 2, 10⟩ : Date) ∧
    (∃ b, (dividir_periodos_coleta_api_guru ⟨2025, 2, 10⟩ ⟨2025, 9, 5⟩).getLast? = some b ∧
      b.2 = (⟨2025, 9, 5⟩ : Date)) ∧
    (∀ b ∈ dividir_periodos_coleta_api_guru ⟨2025, 2, 10⟩ ⟨2025, 9, 5⟩,
      b.1.key ≤ b.2.key ∧ b.2 = min_data (fim_quadrimestre b.1) ⟨2025, 9, 5⟩) ∧
    List.Chain' (fun b c => c.1 = dia_seguinte b.2)
      (dividir_periodos_coleta_api_guru ⟨2025, 2, 10⟩ ⟨2025, 9, 5⟩) ∧
    List.Pairwise (fun b c => b.2.key < c.1.key)
      (dividir_periodos_coleta_api_guru ⟨2025, 2, 10⟩ ⟨2025, 9, 5⟩) ∧
    (∀ dte : Date, dte.Valid →
      (((⟨2025, 2, 10⟩ : Date).key ≤ dte.key ∧ dte.key ≤ (⟨2025, 9, 5⟩ : Date).key) ↔
        ∃ b ∈ dividir_periodos_coleta_api_guru ⟨2025, 2, 10⟩ ⟨2025, 9, 5⟩,
          b.1.key ≤ dte.key ∧ dte.key ≤ b.2.key)) :=
  dividir_periodos_cobre_intervalo ⟨2025, 2, 10⟩ ⟨2025, 9, 5⟩
    (by decide) (by decide) (by decide)

/-! ### `aplicar_regras_assinaturas` of `guru_vendas_assinaturas.py` -/

/-- `_norm(s)`: `unidecode((s or "").strip().lower())`. -/
def norm_txt (s : String) : String := unidecode_ascii (minuscula (trim_txt s))

/-- Python `a or b` for strings (left operand when non-empty). -/
def python_or (a b : String) : String := if a ≠ "" then a else b

/-- Python `o or b` for an optional string against a string default. -/
def python_or_opt (o : Option String) (b : String) : String :=
  match o with
  | some s => if s ≠ "" then s else b
  | none => b

/-- `r["cupom"]` of a rule. -/
structure CupomCfg where
  nome : String := ""
deriving DecidableEq

/-- One entry of `action["brindes"]`: a bare string or a payload dict. -/
inductive BrindeItem where
  | btxt (s : String)
  | bdict (payload : Row)
deriving DecidableEq

/-- `r["action"]`. -/
structure RuleAction where
  tipo : String := ""
  box : String := ""
  brindes : List BrindeItem := []
deriving DecidableEq

/-- One rule of `config_ofertas.json` (`dados["rules"]`). -/
structure Regra where
  applies_to : String := ""
  cupom : CupomCfg := {}
  assinaturas : List String := []
  action : RuleAction := {}
deriving DecidableEq

/-- The fields of the transaction read by the rule engine. -/
structure TransacaoRegras where
  coupon_code : String := ""
  tipo_assinatura : String := ""
deriving DecidableEq

/-- The fields of `dados` read by the rule engine. -/
structure DadosRegras where
  rules : List Regra := []
  periodicidade_selecionada : String := ""
  periodicidade : String := ""

/-- Result record of `aplicar_regras_assinaturas`. -/
structure AplicarRegrasAssinaturas where
  override_box : Option String := none
  brindes_extra : List Row := []
deriving DecidableEq

/-- `_labels_assinatura(tipo, per)`: the known tier labels, normalized. -/
def labels_assinatura (tipo per : String) : List String :=
  let base : List String :=
    if tipo = "bianuais" then ["Assinatura 2 anos"]
    else if tipo = "trianuais" then ["Assinatura 3 anos"]
    else if tipo = "anuais" then ["Assinatura Anual"]
    else if tipo = "bimestrais" then ["Assinatura Bimestral"]
    else if tipo = "mensais" then ["Assinatura Mensal"]
    else []
  let base2 := if base.isEmpty then ["Assinatura"] else base
  (base2.map (fun b => if per ≠ "" then b ++ " (" ++ per ++ ")" else b)).map norm_txt

/-- The generic tier tokens of `_assinatura_match`. -/
def tokens_genericos : List String := ["anual", "2 anos", "3 anos", "mensal", "bimestral"]

/-- One iteration of the `_assinatura_match` loop over `(casou, best)`. -/
def match_passo (labels_alvo : List String) (base_prod_norm alvo_concat : String)
    (st : Bool × Int) (it : String) : Bool × Int :=
  let itn := norm_txt it
  if itn = "" then (true, max st.2 0)
  else if itn ∈ labels_alvo then (true, max st.2 3)
  else if itn = base_prod_norm then (true, max st.2 2)
  else if itn ∈ tokens_genericos ∧ contem_txt itn alvo_concat then (true, max st.2 1)
  else st

/-- `_assinatura_match(lista)`: `(matched, specificity score)`. -/
def assinatura_match (lista : List String) (labels_alvo : List String)
    (base_prod_norm : String) : Bool × Int :=
  if lista = [] then (true, 0)
  else
    let alvo_concat := String.intercalate " " (ordena_txt labels_alvo)
    let res := lista.foldl (match_passo labels_alvo base_prod_norm alvo_concat) (false, -1)
    (res.1, if 0 ≤ res.2 then res.2 else -1)

/-- The loop state of `aplicar_regras_assinaturas`
(`res_override`, `res_override_score`, `brindes_raw`). -/
structure EstadoRegras where
  res_override : Option String := none
  res_score : Int := -1
  brindes_raw : List BrindeItem := []

/-- One iteration of the rule loop of `aplicar_regras_assinaturas`. -/
def processa_regra (ccn : String) (labels_alvo : List String) (bpn : String)
    (st : EstadoRegras) (r : Regra) : EstadoRegras :=
  if minuscula (trim_txt r.applies_to) ≠ "cupom" then st
  else if norm_txt r.cupom.nome = "" ∨ norm_txt r.cupom.nome ≠ ccn then st
  else if ¬(assinatura_match r.assinaturas labels_alvo bpn).1 then st
  else if minuscula (trim_txt r.action.tipo) = "adicionar_brindes" then
    { st with brindes_raw := st.brindes_raw ++ r.action.brindes }
  else if minuscula (trim_txt r.action.tipo) = "alterar_box" then
    if trim_txt r.action.box ≠ "" ∧ st.res_score < (assinatura_match r.assinaturas labels_alvo bpn).2 then
      { st with res_override := some (trim_txt r.action.box),
                res_score := (assinatura_match r.assinaturas labels_alvo bpn).2 }
    else st
  else st

/-- The final gift normalization of `aplicar_regras_assinaturas`:
keep payloads with a non-blank name, drop names equal to the base or
overridden box, dedupe by normalized name. -/
def normaliza_brindes (brindes_raw : List BrindeItem) (bpn override_norm : String) :
    List Row :=
  (brindes_raw.foldl (fun (ac : List Row × List String) b =>
    let par : String × Row :=
      match b with
      | .bdict payload => (trim_txt ((aget payload "nome").getD ""), payload)
      | .btxt s => (trim_txt s, [("nome", trim_txt s)])
    if par.1 = "" then ac
    else
      let nbn := norm_txt par.1
      if nbn = bpn ∨ nbn = override_norm then ac
      else if nbn ∈ ac.2 then ac
      else (ac.1 ++ [par.2], ac.2 ++ [nbn])) ([], [])).1

/-- The tier+periodicity label context computed by
`aplicar_regras_assinaturas` from the transaction and `dados`. -/
def labels_alvo_de (transacao : TransacaoRegras) (dados : DadosRegras) : List String :=
  labels_assinatura (minuscula (trim_txt transacao.tipo_assinatura))
    (minuscula (trim_txt (python_or dados.periodicidade_selecionada dados.periodicidade)))

/-- `aplicar_regras_assinaturas(transacao, dados, _skus_info, base_produto_principal)`. -/
def aplicar_regras_assinaturas (transacao : TransacaoRegras) (dados : DadosRegras)
    (base_produto_principal : String) : AplicarRegrasAssinaturas :=
  let ccn := norm_txt transacao.coupon_code
  let labels := labels_alvo_de transacao dados
  let bpn := norm_txt base_produto_principal
  let st := dados.rules.foldl (processa_regra ccn labels bpn) {}
  let override_norm := norm_txt (python_or_opt st.res_override base_produto_principal)
  { override_box := st.res_override,
    brindes_extra := normaliza_brindes st.brindes_raw bpn override_norm }

/-- The override-box candidate a rule contributes, if any: its box and
specificity score, present exactly when every gate of the loop passes and
the action is a non-blank `alterar_box`. -/
def override_cand (ccn : String) (labels_alvo : List String) (bpn : String)
    (r : Regra) : Option (String × Int) :=
  if minuscula (trim_txt r.applies_to) ≠ "cupom" then none
  else if norm_txt r.cupom.nome = "" ∨ norm_txt r.cupom.nome ≠ ccn then none
  else if ¬(assinatura_match r.assinaturas labels_alvo bpn).1 then none
  else if minuscula (trim_txt r.action.tipo) = "adicionar_brindes" then none
  else if minuscula (trim_txt r.action.tipo) = "alterar_box" then
    if trim_txt r.action.box ≠ "" then
      some (trim_txt r.action.box, (assinatura_match r.assinaturas labels_alvo bpn).2)
    else none
  else none

/-- The candidate list of a rule set. -/
def cands_override (transacao : TransacaoRegras) (dados : DadosRegras)
    (base_produto_principal : String) : List (String × Int) :=
  dados.rules.filterMap (override_cand (norm_txt transacao.coupon_code)
    (labels_alvo_de transacao dados) (norm_txt base_produto_principal))

/-- The strict-improvement fold the loop performs on override candidates. -/
def fold_best (p : Option String × Int) (cands : List (String × Int)) :
    Option String × Int :=
  cands.foldl (fun p c => if p.2 < c.2 then (some c.1, c.2) else p) p

/-! ### Lemmas about the override-box selection -/

theorem processa_caracterizacao (ccn : String) (labels : List String) (bpn : String)
    (st : EstadoRegras) (r : Regra) :
    ((processa_regra ccn labels bpn st r).res_override,
     (processa_regra ccn labels bpn st r).res_score)
      = match override_cand ccn labels bpn r with
        | none => (st.res_override, st.res_score)
        | some c => if st.res_score < c.2 then (some c.1, c.2)
            else (st.res_override, st.res_score) := by
  unfold processa_regra override_cand
  by_cases g1 : minuscula (trim_txt r.applies_to) ≠ "cupom"
  · simp only [if_pos g1]
  · simp only [if_neg g1]
    by_cases g2 : norm_txt r.cupom.nome = "" ∨ norm_txt r.cupom.nome ≠ ccn
    · simp only [if_pos g2]
    · simp only [if_neg g2]
      by_cases g3 : ¬(assinatura_match r.assinaturas labels bpn).1
      · simp only [if_pos g3]
      · simp only [if_neg g3]
        by_cases g4 : minuscula (trim_txt r.action.tipo) = "adicionar_brindes"
        · simp only [if_pos g4]
        · simp only [if_neg g4]
          by_cases g5 : minuscula (trim_txt r.action.tipo) = "alterar_box"
          · simp only [if_pos g5]
            by_cases g6 : trim_txt r.action.box ≠ ""
            · simp only [if_pos g6]
              by_cases g7 : st.res_score < (assinatura_match r.assinaturas labels bpn).2
              · rw [if_pos ⟨g6, g7⟩, if_pos g7]
              · rw [if_neg (fun hc => g7 hc.2), if_neg g7]
            · simp only [if_neg g6]
              rw [if_neg (fun hc => g6 hc.1)]
          · simp only [if_neg g5]

theorem fold_regras_proj (ccn : String) (labels : List String) (bpn : String) :
    ∀ (regras : List Regra) (st : EstadoRegras),
    ((regras.foldl (processa_regra ccn labels bpn) st).res_override,
     (regras.foldl (processa_regra ccn labels bpn) st).res_score)
      = fold_best (st.res_override, st.res_score)
          (regras.filterMap (override_cand ccn labels bpn)) := by
  intro regras
  induction regras with
  | nil => intro st; rfl
  | cons r resto ih =>
    intro st
    rw [List.foldl_cons, ih]
    have hchar := processa_caracterizacao ccn labels bpn st r
    cases hc : override_cand ccn labels bpn r with
    | none =>
      rw [hc] at hchar
      rw [List.filterMap_cons_none hc]
      have h1 : (processa_regra ccn labels bpn st r).res_override = st.res_override := by
        have := congrArg Prod.fst hchar
        simpa using this
      have h2 : (processa_regra ccn labels bpn st r).res_score = st.res_score := by
        have := congrArg Prod.snd hchar
        simpa using this
      rw [h1, h2]
    | some c =>
      rw [hc] at hchar
      rw [List.filterMap_cons_some hc]
      have hstep : fold_best (st.res_override, st.res_score)
          (c :: resto.filterMap (override_cand ccn labels bpn))
          = fold_best (if st.res_score < c.2 then (some c.1, c.2)
              else (st.res_override, st.res_score))
            (resto.filterMap (override_cand ccn labels bpn)) := rfl
      rw [hstep, hchar]

theorem foldl_max_ge_init : ∀ (l : List (String × Int)) (os : Int),
    os ≤ l.foldl (fun a c => max a c.2) os := by
  intro l
  induction l with
  | nil => intro os; exact le_refl os
  | cons c resto ih =>
    intro os
    rw [List.foldl_cons]
    exact (le_max_left os c.2).trans (ih _)

theorem foldl_max_ge_elem : ∀ (l : List (String × Int)) (os : Int) (d : String × Int),
    d ∈ l → d.2 ≤ l.foldl (fun a c => max a c.2) os := by
  intro l
  induction l with
  | nil => intro os d hd; simp at hd
  | cons c resto ih =>
    intro os d hd
    rw [List.mem_cons] at hd
    rw [List.foldl_cons]
    rcases hd with hd | hd
    · rw [hd]
      exact (le_max_right os c.2).trans (foldl_max_ge_init _ _)
    · exact ih _ d hd

theorem foldl_max_all_le : ∀ (l : List (String × Int)) (os : Int),
    (∀ c ∈ l, c.2 ≤ os) → l.foldl (fun a c => max a c.2) os = os := by
  intro l
  induction l with
  | nil => intro os _; rfl
  | cons c resto ih =>
    intro os h
    rw [List.foldl_cons, max_eq_left (h c (List.mem_cons_self _ _))]
    exact ih os (fun d hd => h d (List.mem_cons_of_mem _ hd))

theorem fold_best_nenhum : ∀ (cands : List (String × Int)) (ob : Option String) (os : Int),
    (∀ c ∈ cands, c.2 ≤ os) → fold_best (ob, os) cands = (ob, os) := by
  intro cands
  induction cands with
  | nil => intro ob os _; rfl
  | cons c resto ih =>
    intro ob os h
    rw [fold_best, List.foldl_cons]
    rw [if_neg (not_lt.mpr (h c (List.mem_cons_self _ _)))]
    exact ih ob os (fun d hd => h d (List.mem_cons_of_mem _ hd))

theorem fold_best_snd : ∀ (cands : List (String × Int)) (ob : Option String) (os : Int),
    (fold_best (ob, os) cands).2 = cands.foldl (fun a c => max a c.2) os := by
  intro cands
  induction cands with
  | nil => intro ob os; rfl
  | cons c resto ih =>
    intro ob os
    rw [fold_best, List.foldl_cons, List.foldl_cons, ← fold_best]
    by_cases h : os < c.2
    · rw [if_pos h, max_eq_right h.le]
      exact ih _ _
    · rw [if_neg h, max_eq_left (not_lt.mp h)]
      exact ih _ _

theorem fold_best_primeiro_max : ∀ (cands : List (String × Int)) (ob : Option String)
    (os : Int), (∃ c ∈ cands, os < c.2) →
    ∃ c, cands.find? (fun d => d.2 == (fold_best (ob, os) cands).2) = some c ∧
      (fold_best (ob, os) cands).1 = some c.1 := by
  intro cands
  induction cands with
  | nil => intro ob os h; simp at h
  | cons c resto ih =>
    intro ob os hex
    rw [fold_best, List.foldl_cons, ← fold_best]
    by_cases hc : os < c.2
    · rw [if_pos hc]
      by_cases hr : ∃ d ∈ resto, c.2 < d.2
      · obtain ⟨e, hfind, hfst⟩ := ih (some c.1) c.2 hr
        refine ⟨e, ?_, hfst⟩
        rw [List.find?_cons_of_neg, hfind]
        obtain ⟨d, hd, hdgt⟩ := hr
        have hge := foldl_max_ge_elem resto c.2 d hd
        rw [← fold_best_snd resto (some c.1) c.2] at hge
        simp only [beq_iff_eq]
        omega
      · push_neg at hr
        rw [fold_best_nenhum resto (some c.1) c.2 hr]
        refine ⟨c, ?_, rfl⟩
        rw [List.find?_cons_of_pos]
        simp
    · rw [if_neg hc]
      have hex2 : ∃ d ∈ resto, os < d.2 := by
        obtain ⟨d, hd, hdos⟩ := hex
        rw [List.mem_cons] at hd
        rcases hd with hd | hd
        · rw [hd] at hdos
          exact absurd hdos hc
        · exact ⟨d, hd, hdos⟩
      obtain ⟨e, hfind, hfst⟩ := ih ob os hex2
      refine ⟨e, ?_, hfst⟩
      rw [List.find?_cons_of_neg, hfind]
      obtain ⟨d, hd, hdgt⟩ := hex2
      have hge := foldl_max_ge_elem resto os d hd
      rw [← fold_best_snd resto ob os] at hge
      simp only [beq_iff_eq]
      omega

theorem match_passo_invariante (labels : List String) (bpn alvo : String) :
    ∀ (lista : List String) (st : Bool × Int), (st.1 = true → 0 ≤ st.2) →
    ((lista.foldl (match_passo labels bpn alvo) st).1 = true →
      0 ≤ (lista.foldl (match_passo labels bpn alvo) st).2) := by
  intro lista
  induction lista with
  | nil => intro st h; exact h
  | cons it resto ih =>
    intro st h
    rw [List.foldl_cons]
    apply ih
    unfold match_passo
    by_cases h1 : norm_txt it = ""
    · simp only [if_pos h1]
      intro _
      exact le_max_of_le_right (by omega)
    · simp only [if_neg h1]
      by_cases h2 : norm_txt it ∈ labels
      · simp only [if_pos h2]
        intro _
        exact le_max_of_le_right (by omega)
      · simp only [if_neg h2]
        by_cases h3 : norm_txt it = bpn
        · simp only [if_pos h3]
          intro _
          exact le_max_of_le_right (by omega)
        · simp only [if_neg h3]
          by_cases h4 : norm_txt it ∈ tokens_genericos ∧ contem_txt (norm_txt it) alvo
          · simp only [if_pos h4]
            intro _
            exact le_max_of_le_right (by omega)
          · simp only [if_neg h4]
            exact h

theorem assinatura_match_score_nonneg (lista labels : List String) (bpn : String)
    (h : (assinatura_match lista labels bpn).1 = true) :
    0 ≤ (assinatura_match lista labels bpn).2 := by
  by_cases hl : lista = []
  · subst hl; simp [assinatura_match]
  · have hinv := match_passo_invariante labels bpn
      (String.intercalate " " (ordena_txt labels)) lista (false, -1) (by simp)
    unfold assinatura_match at h ⊢
    rw [if_neg hl] at h ⊢
    dsimp only at h ⊢
    have h0 := hinv h
    rw [if_pos h0]
    exact h0

theorem override_cand_score_nonneg (ccn : String) (labels : List String) (bpn : String)
    (r : Regra) (c : String × Int) (h : override_cand ccn labels bpn r = some c) :
    0 ≤ c.2 := by
  unfold override_cand at h
  by_cases g1 : minuscula (trim_txt r.applies_to) ≠ "cupom"
  · rw [if_pos g1] at h; exact absurd h (by simp)
  · rw [if_neg g1] at h
    by_cases g2 : norm_txt r.cupom.nome = "" ∨ norm_txt r.cupom.nome ≠ ccn
    · rw [if_pos g2] at h; exact absurd h (by simp)
    · rw [if_neg g2] at h
      by_cases g3 : ¬(assinatura_match r.assinaturas labels bpn).1
      · rw [if_pos g3] at h; exact absurd h (by simp)
      · rw [if_neg g3] at h
        by_cases g4 : minuscula (trim_txt r.action.tipo) = "adicionar_brindes"
        · rw [if_pos g4] at h; exact absurd h (by simp)
        · rw [if_neg g4] at h
          by_cases g5 : minuscula (trim_txt r.action.tipo) = "alterar_box"
          · rw [if_pos g5] at h
            by_cases g6 : trim_txt r.action.box ≠ ""
            · rw [if_pos g6] at h
              have hc := Option.some.inj h
              rw [← hc]
              exact assinatura_match_score_nonneg _ _ _ (by
                rw [not_not] at g3
                exact g3)
            · rw [if_neg g6] at h; exact absurd h (by simp)
          · rw [if_neg g5] at h; exact absurd h (by simp)

/-! ### Claim C7 -/

/-- C7: when at least one matching `alterar_box` rule exists, the returned
`override_box` is the box of the **first** candidate attaining the maximal
specificity score: the highest score wins regardless of rule order, and on
ties the first-seen rule wins. -/
theorem aplicar_regras_override_mais_especifica (transacao : TransacaoRegras)
    (dados : DadosRegras) (base_produto_principal : String)
    (hne : cands_override transacao dados base_produto_principal ≠ []) :
    ∃ c, (cands_override transacao dados base_produto_principal).find?
        (fun d => d.2 == ((cands_override transacao dados base_produto_principal).map
          (fun e => e.2)).foldl max (-1)) = some c ∧
      (aplicar_regras_assinaturas transacao dados base_produto_principal).override_box
        = some c.1 ∧
      (∀ d ∈ cands_override transacao dados base_produto_principal, d.2 ≤ c.2) := by
  have hproj : (aplicar_regras_assinaturas transacao dados base_produto_principal).override_box
      = (fold_best (none, -1) (cands_override transacao dados base_produto_principal)).1 := by
    unfold aplicar_regras_assinaturas cands_override
    have := fold_regras_proj (norm_txt transacao.coupon_code)
      (labels_alvo_de transacao dados) (norm_txt base_produto_principal) dados.rules {}
    have hfst := congrArg Prod.fst this
    simpa using hfst
  have hmax_eq : ((cands_override transacao dados base_produto_principal).map
      (fun e => e.2)).foldl max (-1)
      = (fold_best (none, -1) (cands_override transacao dados base_produto_principal)).2 := by
    rw [fold_best_snd]
    rw [List.foldl_map]
  have hex : ∃ c ∈ cands_override transacao dados base_produto_principal, (-1 : Int) < c.2 := by
    cases hc : cands_override transacao dados base_produto_principal with
    | nil => exact absurd hc hne
    | cons c resto =>
      refine ⟨c, List.mem_cons_self _ _, ?_⟩
      have hmem : c ∈ cands_override transacao dados base_produto_principal := by
        rw [hc]; exact List.mem_cons_self _ _
      unfold cands_override at hmem
      obtain ⟨r, _, hr⟩ := List.mem_filterMap.mp hmem
      have := override_cand_score_nonneg _ _ _ r c hr
      omega
  obtain ⟨c, hfind, hfst⟩ := fold_best_primeiro_max
    (cands_override transacao dados base_produto_principal) none (-1) hex
  refine ⟨c, ?_, ?_, ?_⟩
  · rw [hmax_eq]
    exact hfind
  · rw [hproj, hfst]
  · intro d hd
    have hcscore : c.2 = (fold_best (none, -1)
        (cands_override transacao dados base_produto_principal)).2 := by
      have := List.find?_some hfind
      simpa using this
    rw [hcscore, fold_best_snd]
    exact foldl_max_ge_elem _ _ d hd

/-- C7, witness: two matching rules with scores 1 (generic token "anual")
and 3 (exact label), in the order low-then-high; the score-3 box wins. -/
theorem aplicar_regras_override_mais_especifica_witness :
    ∃ c, (cands_override { coupon_code := "CUP10", tipo_assinatura := "anuais" }
        { rules := [
            { applies_to := "cupom", cupom := { nome := "CUP10" },
              assinaturas := ["anual"],
              action := { tipo := "alterar_box", box := "Box Generica" } },
            { applies_to := "cupom", cupom := { nome := "CUP10" },
              assinaturas := ["Assinatura Anual (mensal)"],
              action := { tipo := "alterar_box", box := "Box Especifica" } }],
          periodicidade_selecionada := "mensal" } "Box Base").find?
        (fun d => d.2 == ((cands_override { coupon_code := "CUP10", tipo_assinatura := "anuais" }
          { rules := [
              { applies_to := "cupom", cupom := { nome := "CUP10" },
                assinaturas := ["anual"],
                action := { tipo := "alterar_box", box := "Box Generica" } },
              { applies_to := "cupom", cupom := { nome := "CUP10" },
                assinaturas := ["Assinatura Anual (mensal)"],
                action := { tipo := "alterar_box", box := "Box Especifica" } }],
            periodicidade_selecionada := "mensal" } "Box Base").map
          (fun e => e.2)).foldl max (-1)) = some c ∧
      (aplicar_regras_assinaturas { coupon_code := "CUP10", tipo_assinatura := "anuais" }
        { rules := [
            { applies_to := "cupom", cupom := { nome := "CUP10" },
              assinaturas := ["anual"],
              action := { tipo := "alterar_box", box := "Box Generica" } },
            { applies_to := "cupom", cupom := { nome := "CUP10" },
              assinaturas := ["Assinatura Anual (mensal)"],
              action := { tipo := "alterar_box", box := "Box Especifica" } }],
          periodicidade_selecionada := "mensal" } "Box Base").override_box = some c.1 ∧
      (∀ d ∈ cands_override { coupon_code := "CUP10", tipo_assinatura := "anuais" }
          { rules := [
              { applies_to := "cupom", cupom := { nome := "CUP10" },
                assinaturas := ["anual"],
                action := { tipo := "alterar_box", box := "Box Generica" } },
              { applies_to := "cupom", cupom := { nome := "CUP10" },
                assinaturas := ["Assinatura Anual (mensal)"],
                action := { tipo := "alterar_box", box := "Box Especifica" } }],
            periodicidade_selecionada := "mensal" } "Box Base", d.2 ≤ c.2) :=
  aplicar_regras_override_mais_especifica
    { coupon_code := "CUP10", tipo_assinatura := "anuais" }
    { rules := [
        { applies_to := "cupom", cupom := { nome := "CUP10" },
          assinaturas := ["anual"],
          action := { tipo := "alterar_box", box := "Box Generica" } },
        { applies_to := "cupom", cupom := { nome := "CUP10" },
          assinaturas := ["Assinatura Anual (mensal)"],
          action := { tipo := "alterar_box", box := "Box Especifica" } }],
      periodicidade_selecionada := "mensal" } "Box Base"
    (by decide)

/-! ### C8 — principal-product resolution in `calcular_valores_pedidos`
(src/app/services/bling_planilha_guru.py lines 770-818).

`produto_principal_pedido` is the principal-resolution slice of
`calcular_valores_pedidos`: Python's `produto_principal` starts as `None`
and each step runs under `if not produto_principal`, so an empty string
and `None` behave identically; both are rendered as `""` between steps.
The result `none` is the `StopIteration` path (empty catalog): the code
logs a warning and returns the minimal `MapPedido` structure with
`produto_principal=""` — it never raises. -/

def produto_principal_pedido (internal_id_raw nome_prod_api_raw box_nome_raw : String)
    (skus_info : SKUsInfo) : Option String :=
  let internal_id := trim_txt internal_id_raw
  let passo1 : String :=
    if internal_id ≠ "" then
      match skus_info.find? (fun par => decide (internal_id ∈ par.2.guru_ids)) with
      | some par => par.1
      | none => ""
    else ""
  let passo2 : String :=
    if passo1 = "" then
      if trim_txt nome_prod_api_raw ∈ chaves skus_info then trim_txt nome_prod_api_raw
      else ""
    else passo1
  let passo3 : String := if passo2 = "" then trim_txt box_nome_raw else passo2
  if passo3 = "" then skus_info.head?.map (fun par => par.1)
  else some passo3

theorem produto_principal_passos (iid nome box : String) (skus_info : SKUsInfo)
    (h1 : trim_txt iid = "" ∨ ∀ par ∈ skus_info, trim_txt iid ∉ par.2.guru_ids) :
    produto_principal_pedido iid nome box skus_info =
      if trim_txt nome ∈ chaves skus_info ∧ trim_txt nome ≠ "" then some (trim_txt nome)
      else if trim_txt box ≠ "" then some (trim_txt box)
      else skus_info.head?.map (fun par => par.1) := by
  rcases h1 with hii | hnm
  · by_cases hm : trim_txt nome ∈ chaves skus_info <;>
      by_cases hn : trim_txt nome = "" <;>
      by_cases hb : trim_txt box = "" <;>
      simp [produto_principal_pedido, hii, hm, hn, hb]
  · have hfn : skus_info.find? (fun par => decide (trim_txt iid ∈ par.2.guru_ids)) = none :=
      List.find?_eq_none.mpr (fun x hx => by simp [hnm x hx])
    by_cases hm : trim_txt nome ∈ chaves skus_info <;>
      by_cases hn : trim_txt nome = "" <;>
      by_cases hb : trim_txt box = "" <;>
      simp [produto_principal_pedido, hfn, hm, hn, hb]

/-- C8: `calcular_valores_pedidos` resolves the principal product in this
exact order: (1) the first catalog entry whose `guru_ids` contains the
transaction's (stripped) internal product id; (2) the catalog entry named by
the (stripped) API product name; (3) the run's configured box name when
non-blank; (4) the first catalog entry as last-resort fallback — `none` only
on an empty catalog, which is the warning-logged minimal-structure return,
never an exception. -/
theorem calcular_valores_pedidos_produto_principal (iid nome box : String)
    (skus_info : SKUsInfo) :
    (∀ par, trim_txt iid ≠ "" →
      skus_info.find? (fun e => decide (trim_txt iid ∈ e.2.guru_ids)) = some par →
      par.1 ≠ "" →
      produto_principal_pedido iid nome box skus_info = some par.1) ∧
    ((trim_txt iid = "" ∨ ∀ par ∈ skus_info, trim_txt iid ∉ par.2.guru_ids) →
      trim_txt nome ∈ chaves skus_info → trim_txt nome ≠ "" →
      produto_principal_pedido iid nome box skus_info = some (trim_txt nome)) ∧
    ((trim_txt iid = "" ∨ ∀ par ∈ skus_info, trim_txt iid ∉ par.2.guru_ids) →
      (trim_txt nome = "" ∨ trim_txt nome ∉ chaves skus_info) →
      trim_txt box ≠ "" →
      produto_principal_pedido iid nome box skus_info = some (trim_txt box)) ∧
    ((trim_txt iid = "" ∨ ∀ par ∈ skus_info, trim_txt iid ∉ par.2.guru_ids) →
      (trim_txt nome = "" ∨ trim_txt nome ∉ chaves skus_info) →
      trim_txt box = "" →
      produto_principal_pedido iid nome box skus_info
        = skus_info.head?.map (fun par => par.1)) := by
  refine ⟨?_, ?_, ?_, ?_⟩
  · intro par hiid hfind hne
    simp [produto_principal_pedido, hfind, hiid, hne]
  · intro h1 hmem hne
    rw [produto_principal_passos iid nome box skus_info h1, if_pos ⟨hmem, hne⟩]
  · intro h1 h2 hb
    rw [produto_principal_passos iid nome box skus_info h1,
      if_neg (fun hc => by rcases h2 with h2 | h2; exact hc.2 h2; exact h2 hc.1),
      if_pos hb]
  · intro h1 h2 hb
    rw [produto_principal_passos iid nome box skus_info h1,
      if_neg (fun hc => by rcases h2 with h2 | h2; exact hc.2 h2; exact h2 hc.1),
      if_neg (fun hc => hc hb)]

/-- C8, witness: a two-entry catalog exercising all four steps (internal-id
match, API-name match, box-name fallback, first-entry fallback) and the empty
catalog (minimal-structure `none`). -/
theorem calcular_valores_pedidos_produto_principal_witness :
    produto_principal_pedido " g1 " "Livro B" "Box M"
      ([("Kit A", { sku := "KITA", guru_ids := ["g1"] }),
        ("Livro B", { sku := "B1" })] : SKUsInfo) = some "Kit A" ∧
    produto_principal_pedido "" "Livro B" "Box M"
      ([("Kit A", { sku := "KITA", guru_ids := ["g1"] }),
        ("Livro B", { sku := "B1" })] : SKUsInfo) = some "Livro B" ∧
    produto_principal_pedido "zz" "Nada" " Box M "
      ([("Kit A", { sku := "KITA", guru_ids := ["g1"] }),
        ("Livro B", { sku := "B1" })] : SKUsInfo) = some "Box M" ∧
    produto_principal_pedido "zz" "Nada" ""
      ([("Kit A", { sku := "KITA", guru_ids := ["g1"] }),
        ("Livro B", { sku := "B1" })] : SKUsInfo) = some "Kit A" ∧
    produto_principal_pedido "zz" "Nada" "" ([] : SKUsInfo) = none := by
  refine ⟨?_, ?_, ?_, ?_, ?_⟩
  · exact (calcular_valores_pedidos_produto_principal " g1 " "Livro B" "Box M"
      ([("Kit A", { sku := "KITA", guru_ids := ["g1"] }),
        ("Livro B", { sku := "B1" })] : SKUsInfo)).1
      ("Kit A", { sku := "KITA", guru_ids := ["g1"] }) (by decide) (by decide) (by decide)
  · exact (calcular_valores_pedidos_produto_principal "" "Livro B" "Box M"
      ([("Kit A", { sku := "KITA", guru_ids := ["g1"] }),
        ("Livro B", { sku := "B1" })] : SKUsInfo)).2.1
      (Or.inl (by decide)) (by decide) (by decide)
  · exact (calcular_valores_pedidos_produto_principal "zz" "Nada" " Box M "
      ([("Kit A", { sku := "KITA", guru_ids := ["g1"] }),
        ("Livro B", { sku := "B1" })] : SKUsInfo)).2.2.1
      (Or.inr (by decide)) (Or.inr (by decide)) (by decide)
  · exact (calcular_valores_pedidos_produto_principal "zz" "Nada" ""
      ([("Kit A", { sku := "KITA", guru_ids := ["g1"] }),
        ("Livro B", { sku := "B1" })] : SKUsInfo)).2.2.2
      (Or.inr (by decide)) (Or.inr (by decide)) (by decide)
  · exact (calcular_valores_pedidos_produto_principal "zz" "Nada" ""
      ([] : SKUsInfo)).2.2.2 (Or.inr (by decide)) (Or.inr (by decide)) (by decide)

/-! ### C9 — `_RateLimiter.acquire` (src/app/services/guru_client.py 88-110).

Time is modelled as an exact rational clock (`time.monotonic`), the lock as
sequential execution. `rl_acquire st agora` is one `acquire()` call entered
at instant `agora`: it refills the bucket proportionally to elapsed time
(capped at `burst`), stamps `last := agora`, and either consumes a token and
returns at once (sleep 0) or — exactly as the code does — computes
`sleep_s = max(min_interval, (1-tokens)/qps)` and sleeps **without consuming
a token and without re-checking**. `rl_executa st t k` runs `k` back-to-back
`acquire()` calls starting at instant `t` and returns the final state and the
instant the last call returns. -/

structure RLState where
  qps : ℚ
  burst : ℚ
  tokens : ℚ
  last : ℚ
deriving DecidableEq

def rl_recarga (st : RLState) (agora : ℚ) : RLState :=
  { st with tokens := min st.burst (st.tokens + (agora - st.last) * st.qps), last := agora }

def rl_acquire (st : RLState) (agora : ℚ) : RLState × ℚ :=
  let st1 := rl_recarga st agora
  if 1 ≤ st1.tokens then ({ st1 with tokens := st1.tokens - 1 }, 0)
  else (st1, max (1 / st1.qps) ((1 - st1.tokens) / st1.qps))

def rl_executa : RLState → ℚ → Nat → RLState × ℚ
  | st, t, 0 => (st, t)
  | st, t, n + 1 =>
    let r := rl_acquire st t
    rl_executa r.1 (t + r.2) n

/-- C9: the pacing contract is violated. With `qps = 1` and the default
`burst = 2` (full bucket at instant 0), four back-to-back `acquire()` calls
all return by instant 1, and six by instant 2 — a sustained admitted rate of
2 calls per second, twice the configured `qps`; a bucket honouring
"blocks until ≥ 1 token is available and consumes it" would need
`(k - burst)/qps` seconds, i.e. instants 2 and 4. The cause: the no-token
branch sleeps `max(1/qps, (1-tokens)/qps)` and then returns **without
consuming a token**, so the sleeper's accrued token is handed to the next
caller and every second call passes for free. -/
theorem rate_limiter_excede_taxa :
    (rl_executa { qps := 1, burst := 2, tokens := 2, last := 0 } 0 4).2 = 1 ∧
    (rl_executa { qps := 1, burst := 2, tokens := 2, last := 0 } 0 6).2 = 2 ∧
    ((4 : ℚ) - 2) / 1 = 2 ∧ ((6 : ℚ) - 2) / 1 = 4 := by
  refine ⟨?_, ?_, by norm_num, by norm_num⟩
  · norm_num [rl_executa, rl_acquire, rl_recarga]
  · norm_num [rl_executa, rl_acquire, rl_recarga]

end LgLogistica
